import Mathlib

/-!
Verification development for the `graphile-build` PostgreSQL type-bridge
plugins (`PgTypesPlugin.js`, `PgBasicsPlugin.js`, `PgRowByUniqueConstraint.js`).

The JavaScript sources are shallowly embedded as executable Lean
definitions:

* wire / schema values are the inductive `Val` (JS `null`, `undefined`,
  strings, numbers, `NaN`, booleans, arrays, plain objects);
* the introspection type descriptors are the inductive `PgType`, a tree
  whose optional children embed the object wiring
  (`domainBaseType`, `arrayItemType`, `rangeSubType`);
* the GraphQL type objects are the inductive `GqlType`; every object
  allocation in the source receives a fresh `uid`, so that value equality
  of `GqlType` coincides with JavaScript reference equality;
* the mutable module state of the `build` hook (`gqlTypeByTypeId`,
  `gqlInputTypeByTypeId`, the named-type registry behind
  `addType`/`getTypeByName`, the recursion-depth counter `depth`) is the
  structure `BuildSt`, threaded explicitly; JS exceptions are `Except`.

External collaborators that are not part of this repository are embedded
at their interface: the naming service (`upperCamelCase` and friends) is
an explicit `Inflection` parameter, and the `pg-types` wire parsers are a
`getTypeParser` parameter.
-/

/-! ## JavaScript values -/

/-- Model of the JavaScript values that cross the codec boundary:
`null`, `undefined`, strings, finite numbers (as rationals), `NaN`,
booleans, arrays and plain objects. -/
inductive Val where
  | null
  | undef
  | str (s : String)
  | num (q : ℚ)
  | nan
  | bool (b : Bool)
  | arr (vs : List Val)
  | obj (fields : List (String × Val))

/-- Digits of a character list prefix, as `(value, count)`; models the
integer-part scan of JS numeric parsing. -/
def scanDigits : List Char → Nat → Nat → Nat × Nat × List Char
  | c :: cs, acc, k =>
      if c.isDigit then scanDigits cs (acc * 10 + (c.toNat - '0'.toNat)) (k + 1)
      else (acc, k, c :: cs)
  | [], acc, k => (acc, k, [])

/-- Model of JavaScript `parseFloat` restricted to the decimal forms that
occur in this code base: optional leading spaces, optional sign, integer
digits, optional fractional digits (exponents are not modelled; inputs
containing them do not arise in the embedded code paths).  Returns
`Val.nan` when no digits are found, like `parseFloat`. -/
def parseFloatJs (s : String) : Val :=
  let cs := s.data.dropWhile (· = ' ')
  let (neg, cs) := match cs with
    | '-' :: rest => (true, rest)
    | '+' :: rest => (false, rest)
    | rest => (false, rest)
  let (ip, ik, cs) := scanDigits cs 0 0
  match cs with
  | '.' :: rest =>
      let (fp, fk, _) := scanDigits rest 0 0
      if ik = 0 ∧ fk = 0 then Val.nan
      else
        let q : ℚ := (ip : ℚ) + (fp : ℚ) / ((10 : ℚ) ^ fk)
        Val.num (if neg then -q else q)
  | _ =>
      if ik = 0 then Val.nan
      else Val.num (if neg then -(ip : ℚ) else (ip : ℚ))

/-- Model of JavaScript `parseInt(s, 10)` as used by the `pg-types`
integer parsers: optional sign then a maximal digit prefix; `NaN` when no
digit is present. -/
def parseIntJs (s : String) : Val :=
  let cs := s.data.dropWhile (· = ' ')
  let (neg, cs) := match cs with
    | '-' :: rest => (true, rest)
    | '+' :: rest => (false, rest)
    | rest => (false, rest)
  let (ip, ik, _) := scanDigits cs 0 0
  if ik = 0 then Val.nan
  else Val.num (if neg then -(ip : ℚ) else (ip : ℚ))

/-- Model of JavaScript `String.prototype.split(",")`: splitting on every
comma, with empty segments preserved (`"" → [""]`, `"," → ["", ""]`). -/
def splitComma (cs : List Char) : List (List Char) :=
  match cs with
  | [] => [[]]
  | c :: rest =>
      let r := splitComma rest
      if c = ',' then [] :: r
      else (c :: r.headD []) :: r.tail

/-! ## parseMoney (PgTypesPlugin.js lines 444-454) -/

/-- Embedding of `parseMoney` from `PgTypesPlugin.js`: strip every
character other than digits, dots and commas; if the last comma sits
exactly two digits from the end, treat the string as `123.456,78`-style
(dots are grouping, the comma is the decimal separator); otherwise treat
it as `123,456.78`-style (commas are grouping). -/
def parseMoney (s : String) : Val :=
  let numerical := s.data.filter (fun c => c.isDigit ∨ c = '.' ∨ c = ',')
  let lastCommaIndex :=
    match (numerical.reverse.indexOf? ',') with
    | some revIdx => (numerical.length - 1 - revIdx : Int)
    | none => (-1 : Int)
  if lastCommaIndex ≥ 0 ∧ lastCommaIndex = (numerical.length : Int) - 3 then
    -- Assume string is of the form '123.456,78'
    parseFloatJs (String.mk ((numerical.filter (· ≠ '.')).map
      (fun c => if c = ',' then '.' else c)))
  else
    -- Assume string is of the form '123,456.78'
    parseFloatJs (String.mk (numerical.filter (· ≠ ',')))

/-! ## pgRangeParser (PgTypesPlugin.js lines 61-97) -/

/-- Raw bound produced by `pgRangeParser.parse`: the inclusivity flag read
off the bracket character and the not-yet-decoded bound text. -/
structure RawBound where
  inclusive : Bool
  value : String
deriving DecidableEq, Repr

/-- Raw two-sided range produced by `pgRangeParser.parse`; `none` models
the JS `null` bound ("unbounded on that side"). -/
structure RawRange where
  start : Option RawBound
  rangeEnd : Option RawBound
deriving DecidableEq, Repr

/-- Embedding of `pgRangeParser.parse`: split the literal on every comma;
exactly two parts are required; a part longer than one character carries
an inclusivity flag from its leading/trailing bracket character and the
remaining bound text, a part of length at most one yields a null bound. -/
def pgRangeParserParse (s : String) : Except String RawRange :=
  let parts := splitComma s.data
  match parts with
  | [p0, p1] =>
      Except.ok
        { start :=
            if p0.length > 1 then
              some { inclusive := p0.headD ' ' = '[', value := String.mk (p0.drop 1) }
            else none
          rangeEnd :=
            if p1.length > 1 then
              some { inclusive := p1.getLastD ' ' = ']',
                     value := String.mk (p1.dropLast) }
            else none }
  | _ => Except.error "Invalid daterange"

/-! ## point decoding (PgTypesPlugin.js lines 461-472, pg2GqlMapper[600]) -/

/-- Embedding of the `map` function of `pg2GqlMapper[600]` (the `point`
codec): only a literal that both begins with a parenthesis and ends with
one is processed (strip them, split on commas, `parseFloat` each part);
any other text falls off the end of the JS function, i.e. returns
`undefined`, modelled as `none`. -/
def pointParse (f : String) : Option (Val × Val) :=
  if f.data.head? = some '(' ∧ f.data.getLast? = some ')' then
    let parts := splitComma ((f.data.drop 1).dropLast)
    let floats := parts.map (fun p => parseFloatJs (String.mk p))
    some (floats.headD Val.undef, (floats.drop 1).headD Val.undef)
  else
    none

/-! ## enumName (PgRowByUniqueConstraint.js bundle, inflection hook
lines 396-476) -/

/-- Replacement table applied to the whole (asterisk-rewritten) variant
text; embeds the object literal in `enumName`. -/
def enumSymbolTable (v : String) : Option String :=
  match v with
  | ">" => some "GREATER_THAN"
  | ">=" => some "GREATER_THAN_OR_EQUAL"
  | "=" => some "EQUAL"
  | "!=" => some "NOT_EQUAL"
  | "<>" => some "DIFFERENT"
  | "<=" => some "LESS_THAN_OR_EQUAL"
  | "<" => some "LESS_THAN"
  | "~~" => some "LIKE"
  | "~~*" => some "ILIKE"
  | "!~~" => some "NOT_LIKE"
  | "!~~*" => some "NOT_ILIKE"
  | "~" => some "TILDE"
  | "~*" => some "TILDE_ASTERISK"
  | "!~" => some "NOT_TILDE"
  | "!~*" => some "NOT_TILDE_ASTERISK"
  | "%" => some "PERCENT"
  | "+" => some "PLUS"
  | "-" => some "MINUS"
  | "/" => some "SLASH"
  | "\\" => some "BACKSLASH"
  | "_" => some "UNDERSCORE"
  | "#" => some "POUND"
  | "£" => some "STERLING"
  | "$" => some "DOLLAR"
  | "&" => some "AMPERSAND"
  | "@" => some "AT"
  | "\x27" => some "APOSTROPHE"
  | "\"" => some "QUOTE"
  | "`" => some "BACKTICK"
  | ":" => some "COLON"
  | ";" => some "SEMICOLON"
  | "!" => some "EXCLAMATION_POINT"
  | "?" => some "QUESTION_MARK"
  | "," => some "COMMA"
  | "." => some "DOT"
  | "^" => some "CARET"
  | "|" => some "BAR"
  | "[" => some "OPEN_BRACKET"
  | "]" => some "CLOSE_BRACKET"
  | "(" => some "OPEN_PARENTHESIS"
  | ")" => some "CLOSE_PARENTHESIS"
  | "\x7b" => some "OPEN_BRACE"
  | "\x7d" => some "CLOSE_BRACE"
  | _ => none

/-- Global replacement of `*` by `_ASTERISK_`; embeds
`value.replace(/\*/g, "_ASTERISK_")`. -/
def replaceAsterisks (cs : List Char) : List Char :=
  cs.flatMap (fun c => if c = '*' then "_ASTERISK_".data else [c])

/-- Embedding of `value.replace(/^(_?)_+ASTERISK/, "$1ASTERISK")`: when
the text starts with one or more underscores immediately followed by
`ASTERISK`, the run of underscores collapses to a single one if there
were at least two and to nothing otherwise (the regex is anchored and
non-global, so at most this one leading rewrite happens). -/
def stripLeadingAsterisk (cs : List Char) : List Char :=
  let m := (cs.takeWhile (· = '_')).length
  let rest := cs.drop m
  if m ≥ 1 ∧ rest.take 8 = "ASTERISK".data then
    (if m ≥ 2 then ['_'] else []) ++ rest
  else cs

/-- Embedding of `value.replace(/ASTERISK_(_?)_*$/, "ASTERISK$1")`: when
the text ends with `ASTERISK` followed by one or more underscores, the
trailing run of underscores collapses to a single one if there were at
least two and to nothing otherwise. -/
def stripTrailingAsterisk (cs : List Char) : List Char :=
  let rcs := cs.reverse
  let m := (rcs.takeWhile (· = '_')).length
  let rest := rcs.drop m
  if m ≥ 1 ∧ rest.take 8 = "ASTERISK".data.reverse then
    rest.reverse ++ (if m ≥ 2 then ['_'] else [])
  else cs

/-- Embedding of the default `enumName` inflector: the empty variant maps
to the reserved sentinel `_EMPTY_`; asterisks are rewritten to
`_ASTERISK_` tokens with leading/trailing underscore cleanup; then the
whole text is looked up in the symbol table, falling back to itself. -/
def enumName (inValue : String) : String :=
  if inValue = "" then "_EMPTY_"
  else
    let v := String.mk
      (stripTrailingAsterisk (stripLeadingAsterisk (replaceAsterisks inValue.data)))
    (enumSymbolTable v).getD v

/-! ## Type descriptors -/

/-- Introspection type descriptor (`pgIntrospectionResultsByKind.type`
entries).  `typtype` is the JS field `type` (`"b"` base, `"e"` enum,
`"r"` range, `"d"` domain); optional children embed the object wiring the
introspection layer performs (`domainBaseType`, `arrayItemType` for
`isPgArray`/category-`A` types, and the `typeById[rangeSubTypeId]`
lookup as `rangeSubType`).  `tagsName` is `tags.name` (smart-comment
rename). -/
inductive PgType where
  | mk (id : Nat) (name : String) (namespaceName : String)
       (typtype : String) (category : String)
       (description : Option String) (tagsName : Option String)
       (domainBaseType : Option PgType)
       (isPgArray : Bool) (arrayItemType : Option PgType)
       (rangeSubType : Option PgType)
       (enumVariants : List String)

def PgType.id : PgType → Nat
  | .mk i _ _ _ _ _ _ _ _ _ _ _ => i

def PgType.name : PgType → String
  | .mk _ n _ _ _ _ _ _ _ _ _ _ => n

def PgType.namespaceName : PgType → String
  | .mk _ _ ns _ _ _ _ _ _ _ _ _ => ns

def PgType.typtype : PgType → String
  | .mk _ _ _ tt _ _ _ _ _ _ _ _ => tt

def PgType.category : PgType → String
  | .mk _ _ _ _ c _ _ _ _ _ _ _ => c

def PgType.description : PgType → Option String
  | .mk _ _ _ _ _ d _ _ _ _ _ _ => d

def PgType.tagsName : PgType → Option String
  | .mk _ _ _ _ _ _ tg _ _ _ _ _ => tg

def PgType.domainBaseType : PgType → Option PgType
  | .mk _ _ _ _ _ _ _ db _ _ _ _ => db

def PgType.isPgArray : PgType → Bool
  | .mk _ _ _ _ _ _ _ _ a _ _ _ => a

def PgType.arrayItemType : PgType → Option PgType
  | .mk _ _ _ _ _ _ _ _ _ it _ _ => it

def PgType.rangeSubType : PgType → Option PgType
  | .mk _ _ _ _ _ _ _ _ _ _ rs _ => rs

def PgType.enumVariants : PgType → List String
  | .mk _ _ _ _ _ _ _ _ _ _ _ ev => ev

/-- JS `type.domainBaseTypeId` as recovered from the wired child (`0`
models a falsy/absent id). -/
def PgType.domainBaseTypeId (t : PgType) : Nat :=
  match t.domainBaseType with
  | some b => b.id
  | none => 0

/-! ## GraphQL type objects -/

/-- Model of the GraphQL type objects the plugin constructs.  Each
constructor application in the source allocates a fresh object; the `uid`
records that allocation, so equality of `GqlType` values is JavaScript
reference equality (no two allocations share a `uid`).  `aliasType` is
the `Object.assign(Object.create(base), {name, description})` domain
alias: it delegates everything to `base` except name and description. -/
inductive GqlType where
  | scalar (uid : Nat) (name : String)
  | enumType (uid : Nat) (name : String) (description : Option String)
             (values : List (String × String))
  | objectType (uid : Nat) (name : String)
  | inputObjectType (uid : Nat) (name : String)
  | listType (uid : Nat) (item : GqlType)
  | aliasType (uid : Nat) (name : String) (description : Option String) (base : GqlType)
deriving DecidableEq, Repr

/-- Name of a GraphQL type, as produced by its `toString()`/`name`; a
list type delegates to its item (`getNamedType` is applied before any
name use in the embedded code). -/
def GqlType.gqlName : GqlType → String
  | .scalar _ n => n
  | .enumType _ n _ _ => n
  | .objectType _ n => n
  | .inputObjectType _ n => n
  | .listType _ item => item.gqlName
  | .aliasType _ n _ _ => n

/-- Model of graphql-js `isInputType`: scalars, enums and input objects
are input types, objects are not, lists delegate to their item, and a
prototype alias (`Object.create(base)`) keeps the base's class, hence its
`isInputType` answer. -/
def GqlType.isInputType : GqlType → Bool
  | .scalar _ _ => true
  | .enumType _ _ _ _ => true
  | .objectType _ _ => false
  | .inputObjectType _ _ => true
  | .listType _ item => item.isInputType
  | .aliasType _ _ _ base => base.isInputType

/-- Model of graphql-js `getNamedType`: unwrap list wrappers. -/
def getNamedType : GqlType → GqlType
  | .listType _ item => getNamedType item
  | t => t

/-! ## SQL fragments and value helpers -/

/-- Model of the `pg-sql2` fragments the encoders build: `sql.null`,
`sql.value(v)`, the `(v)::money` cast, the `point(x, y)` constructor
call, the `array[...]::ns.name` literal and the
`ns.name(lower, upper, flags)` range constructor. -/
inductive SqlFrag where
  | null
  | value (v : Val)
  | moneyCast (v : Val)
  | pointCtor (x y : Val)
  | arrayLit (elems : List SqlFrag) (namespaceName : String) (name : String)
  | rangeCtor (namespaceName name : String) (lower upper : SqlFrag) (flags : String)

/-- JavaScript truthiness of a modelled value. -/
def jsTruthy : Val → Bool
  | .null => false
  | .undef => false
  | .str s => s ≠ ""
  | .num q => q ≠ 0
  | .nan => false
  | .bool b => b
  | .arr _ => true
  | .obj _ => true

/-- Property read `o[k]` on a modelled object (first binding wins;
missing property is `undefined`). -/
def objGet (v : Val) (k : String) : Val :=
  match v with
  | .obj fields => ((fields.find? (fun p => p.1 = k)).map (·.2)).getD Val.undef
  | _ => Val.undef

/-- Decimal rendering of a rational whose denominator divides a power of
ten, as JavaScript prints such numbers (`1 ↦ "1"`, `-0.5 ↦ "-0.5"`).
Rationals outside that (unreachable from the modelled decimal parsers)
render with an explicit denominator marker. -/
def numToString (q : ℚ) : String :=
  if q.den = 1 then toString q.num
  else
    match (List.range 31).find? (fun k => q.den ∣ 10 ^ k) with
    | some k =>
        let sign := if q.num < 0 then "-" else ""
        let scaled := (q.num.natAbs * 10 ^ k) / q.den
        sign ++ toString (scaled / 10 ^ k) ++ "." ++
          (String.mk (List.replicate (k - (toString (scaled % 10 ^ k)).length) '0')
            ++ toString (scaled % 10 ^ k))
    | none => toString q.num ++ "/" ++ toString q.den

/-- String coercion of a modelled value, as in a JS template literal. -/
def valToStr : Val → String
  | .null => "null"
  | .undef => "undefined"
  | .str s => s
  | .num q => numToString q
  | .nan => "NaN"
  | .bool b => if b then "true" else "false"
  | .arr _ => ""
  | .obj _ => "[object Object]"

/-- JSON string escaping for the characters the embedded code can
produce (quote, backslash, and common control characters). -/
def jsonEscape (cs : List Char) : List Char :=
  cs.flatMap (fun c =>
    if c = '"' then ['\\', '"']
    else if c = '\\' then ['\\', '\\']
    else if c = '\n' then ['\\', 'n']
    else if c = '\r' then ['\\', 'r']
    else if c = '\t' then ['\\', 't']
    else [c])

/-- Model of `JSON.stringify`, structurally bounded by a fuel that
exceeds any value depth arising in the embedded code (values deeper than
the fuel cannot occur on the modelled paths).  `undefined` and `NaN`
serialize as `null` in array positions; object properties with
`undefined` values are omitted, exactly as in JavaScript. -/
def jsonStringifyF : Nat → Val → String
  | 0, _ => ""
  | _ + 1, .null => "null"
  | _ + 1, .undef => "null"
  | _ + 1, .nan => "null"
  | _ + 1, .str s => "\"" ++ String.mk (jsonEscape s.data) ++ "\""
  | _ + 1, .num q => numToString q
  | _ + 1, .bool b => if b then "true" else "false"
  | fuel + 1, .arr vs =>
      "[" ++ String.intercalate "," (vs.map (jsonStringifyF fuel)) ++ "]"
  | fuel + 1, .obj fields =>
      "\x7b" ++ String.intercalate ","
        ((fields.filter (fun p => match p.2 with | .undef => false | _ => true)).map
          (fun p => "\"" ++ String.mk (jsonEscape p.1.data) ++ "\":" ++
            jsonStringifyF fuel p.2)) ++ "\x7d"

/-- Model of `JSON.stringify` at a fuel larger than any value depth in
the embedded code paths. -/
def jsonStringify (v : Val) : String := jsonStringifyF 1000 v

/-! ## Value codecs (pg2GqlMapper) and pg2gql / gql2pg
(PgTypesPlugin.js lines 120-167 and 414-472) -/

/-- A `pg2GqlMapper` entry: `map` decodes a wire value into a GraphQL
value, `unmap` encodes a GraphQL value into a SQL fragment.  JS throws
are `Except.error`. -/
structure Codec where
  map : Val → Except String Val
  unmap : Val → Except String SqlFrag

/-- Modelled from the spec: the `postgres-interval` literal parser (the
package is external to this repository).  Decoding
`"1 year 2 months 3 days 4 hours 5 minutes 6 seconds"` yields the
structured `{seconds, minutes, hours, days, months, years}` value; the
literal is a sequence of `"<n> <unit>"` tokens.  The LRU parse cache of
the source is semantically transparent and is not modelled. -/
def intervalParse (s : String) : Val :=
  let toks := (splitComma s.data).headD [] |> (fun _ => s.data)
  let words := ((String.mk toks).split (· = ' ')).filter (· ≠ "")
  let rec go : List String → List (String × Val) → List (String × Val)
    | n :: u :: rest, acc =>
        let key :=
          if u = "year" ∨ u = "years" then some "years"
          else if u = "month" ∨ u = "months" ∨ u = "mon" ∨ u = "mons" then some "months"
          else if u = "day" ∨ u = "days" then some "days"
          else if u = "hour" ∨ u = "hours" then some "hours"
          else if u = "minute" ∨ u = "minutes" then some "minutes"
          else if u = "second" ∨ u = "seconds" then some "seconds"
          else none
        match key with
        | some k => go rest (acc ++ [(k, parseFloatJs n)])
        | none => go rest acc
    | _, acc => acc
  Val.obj (go words [])

/-- Embedding of the interval `unmap` (PgTypesPlugin.js lines 432-441):
join the truthy fields as `"<n> <unit>"` tokens in the fixed key order,
defaulting to `"0 seconds"`. -/
def intervalUnmap (o : Val) : SqlFrag :=
  let keys := ["seconds", "minutes", "hours", "days", "months", "years"]
  let parts := keys.foldl
    (fun parts key =>
      if jsTruthy (objGet o key) then parts ++ [valToStr (objGet o key) ++ " " ++ key]
      else parts) []
  SqlFrag.value (.str (if parts = [] then "0 seconds" else String.intercalate " " parts))

/-- Embedding of the statically registered `pg2GqlMapper` entries, at the
default plugin options (`pgExtendedTypes = true`): json/jsonb (114/3802)
pass structured values through and stringify on the way in; interval
(1186) parses/joins interval literals; money (790) uses `parseMoney` and
casts back to `money`; point (600) parses the parenthesised literal and
rebuilds a `point(x, y)` call. -/
def pg2GqlMapper : Nat → Option Codec
  | 114 => some
      { map := fun v => .ok v
        unmap := fun o => .ok (.value (.str (jsonStringify o))) }
  | 3802 => some
      { map := fun v => .ok v
        unmap := fun o => .ok (.value (.str (jsonStringify o))) }
  | 1186 => some
      { map := fun v =>
          match v with
          | .str s => .ok (intervalParse s)
          | _ => .error "TypeError: interval decode expects a string"
        unmap := fun o => .ok (intervalUnmap o) }
  | 790 => some
      { map := fun v =>
          match v with
          | .str s => .ok (parseMoney s)
          | _ => .error "TypeError: str.replace is not a function"
        unmap := fun v => .ok (.moneyCast v) }
  | 600 => some
      { map := fun v =>
          match v with
          | .str s =>
              .ok (match pointParse s with
                   | some (x, y) => .obj [("x", x), ("y", y)]
                   | none => .undef)
          | _ => .error "TypeError: point decode expects a string"
        unmap := fun o => .ok (.pointCtor (objGet o "x") (objGet o "y")) }
  | _ => none

/-- Embedding of `pg2gql` (PgTypesPlugin.js lines 121-141): `null` and
`undefined` pass straight through; a registered codec for the exact type
id takes precedence; a domain delegates to its base type; an array type
requires an array value (anything else throws the "Expected array"
conversion error naming the namespace-qualified type) and decodes its
elements at the item type; everything else is identity.  The codec table
is a parameter so that the theorems quantify over every registration
state. -/
def pg2gql (m : Nat → Option Codec) (val : Val) (t : PgType) : Except String Val :=
  match val, t with
  | .null, _ => .ok .null
  | .undef, _ => .ok .undef
  | val, .mk tid tname tns _ _ _ _ dbase isArr aitem _ _ =>
      match m tid with
      | some c => c.map val
      | none =>
          match dbase with
          | some bt => pg2gql m val bt
          | none =>
              if isArr then
                match val with
                | .arr vs =>
                    match aitem with
                    | some it => (vs.mapM (fun v => pg2gql m v it)).map Val.arr
                    | none => .error "TypeError: cannot read properties of undefined"
                | _ =>
                    .error ("Expected array when converting PostgreSQL data into GraphQL; failing type: \x27"
                      ++ tns ++ "." ++ tname ++ "\x27")
              else .ok val

/-- Embedding of `gql2pg` (PgTypesPlugin.js lines 142-167): `null` and
`undefined` become `sql.null`; a registered codec's `unmap` takes
precedence; a domain delegates to its base; an array value is encoded
element-wise and wrapped in an `array[...]::ns.name` literal; everything
else becomes `sql.value(val)`. -/
def gql2pg (m : Nat → Option Codec) (val : Val) (t : PgType) : Except String SqlFrag :=
  match val, t with
  | .null, _ => .ok .null
  | .undef, _ => .ok .null
  | val, .mk tid tname tns _ _ _ _ dbase isArr aitem _ _ =>
      match m tid with
      | some c => c.unmap val
      | none =>
          match dbase with
          | some bt => gql2pg m val bt
          | none =>
              if isArr then
                match val with
                | .arr vs =>
                    match aitem with
                    | some it =>
                        (vs.mapM (fun v => gql2pg m v it)).map
                          (fun fs => SqlFrag.arrayLit fs tns tname)
                    | none => .error "TypeError: cannot read properties of undefined"
                | _ =>
                    .error ("Expected array when converting GraphQL data into PostgreSQL data; failing type: \x27"
                      ++ tns ++ "." ++ tname ++ "\x27 (type: object)")
              else .ok (.value val)

/-! ## Synthesized range codec (PgTypesPlugin.js lines 607-646) -/

/-- One decoded range bound: the subtype-decoded value and the
inclusivity flag. -/
structure BoundValue where
  value : Val
  inclusive : Bool

/-- Decoded range value `{start, end}`; `none` models the JS `null`
unbounded side. -/
structure RangeValue where
  start : Option BoundValue
  rangeEnd : Option BoundValue

/-- Type ids whose range bounds skip the `pg-types` parser
(PgTypesPlugin.js lines 247-254). -/
def rawTypes : List Nat := [1186, 1082, 1114, 1184, 1083, 1266]

/-- Decoding of one raw bound inside the range `map`: a present bound's
text runs through the subtype's wire parser and `pg2gql`; a null bound
stays null. -/
def decodeRawBound (m : Nat → Option Codec) (subtype : PgType)
    (pgParse : String → Val) : Option RawBound → Except String (Option BoundValue)
  | some b => (pg2gql m (pgParse b.value) subtype).map
      (fun v => some { value := v, inclusive := b.inclusive })
  | none => .ok none

/-- Embedding of the synthesized range `map` (PgTypesPlugin.js lines
608-632): parse the wire literal with `pgRangeParser`, then decode each
present bound text through the subtype's parser (`pg-types`
`getTypeParser`, passed as a parameter since that package is external;
`rawTypes` keep the raw text) followed by `pg2gql` at the subtype. -/
def rangeMap (getTypeParser : Nat → String → Val) (m : Nat → Option Codec)
    (subtype : PgType) (pgRange : String) : Except String RangeValue := do
  let parsed ← pgRangeParserParse pgRange
  let pgParse : String → Val :=
    if subtype.id ∈ rawTypes then (fun s => .str s) else getTypeParser subtype.id
  let startB ← decodeRawBound m subtype pgParse parsed.start
  let endB ← decodeRawBound m subtype pgParse parsed.rangeEnd
  pure { start := startB, rangeEnd := endB }

/-- Embedding of the synthesized range `unmap` (PgTypesPlugin.js lines
633-645): encode each present bound value at the subtype, defaulting to
`sql.null`, and rebuild the `ns.name(lower, upper, flags)` constructor
call with the two-character inclusivity flags. -/
def rangeUnmap (m : Nat → Option Codec) (t subtype : PgType) (val : Val) :
    Except String SqlFrag := do
  let start := objGet val "start"
  let rangeEnd := objGet val "end"
  let lower ← if jsTruthy start then gql2pg m (objGet start "value") subtype
              else pure SqlFrag.null
  let upper ← if jsTruthy rangeEnd then gql2pg m (objGet rangeEnd "value") subtype
              else pure SqlFrag.null
  let lowerInclusive :=
    if jsTruthy start ∧ ¬ jsTruthy (objGet start "inclusive") then "(" else "["
  let upperInclusive :=
    if jsTruthy rangeEnd ∧ ¬ jsTruthy (objGet rangeEnd "inclusive") then ")" else "]"
  pure (.rangeCtor t.namespaceName t.name lower upper (lowerInclusive ++ upperInclusive))

/-- Model of the `pg-types` `getTypeParser` for the parsers exercised in
this development: the four-byte integer parser (`parseInt`) and the
float parsers (`parseFloat`); other ids keep the wire text.  The
`pg-types` package is external to this repository and is embedded at its
interface. -/
def pgTypesGetTypeParser : Nat → String → Val
  | 21, s => parseIntJs s
  | 23, s => parseIntJs s
  | 20, s => .str s
  | 700, s => parseFloatJs s
  | 701, s => parseFloatJs s
  | _, s => .str s

/-! ## Inflection (naming service interface plus the inflectors of the
source's inflection hook) -/

/-- Case-transformation primitives of the external naming service
(`upperCamelCase` etc. are not part of this repository); the inflectors
of the source are defined on top of them. -/
structure Inflection where
  upperCamelCase : String → String

/-- Source inflector `_typeName`: `type.tags.name || type.name`. -/
def pgTypeNameTag (t : PgType) : String :=
  (t.tagsName).getD t.name

/-- Source inflector `enumType`: `upperCamelCase(_typeName(type))`. -/
def Inflection.enumTypeName (i : Inflection) (t : PgType) : String :=
  i.upperCamelCase (pgTypeNameTag t)

/-- Source inflector `domainType`: `upperCamelCase(_typeName(type))`. -/
def Inflection.domainTypeName (i : Inflection) (t : PgType) : String :=
  i.upperCamelCase (pgTypeNameTag t)

/-- Source inflector `inputType`: `upperCamelCase(typeName + "-input")`. -/
def Inflection.inputTypeName (i : Inflection) (typeName : String) : String :=
  i.upperCamelCase (typeName ++ "-input")

/-- Source inflector `rangeType`: `upperCamelCase(typeName + "-range")`. -/
def Inflection.rangeTypeName (i : Inflection) (typeName : String) : String :=
  i.upperCamelCase (typeName ++ "-range")

/-- Source inflector `rangeBoundType`:
`upperCamelCase(typeName + "-range-bound")`. -/
def Inflection.rangeBoundTypeName (i : Inflection) (typeName : String) : String :=
  i.upperCamelCase (typeName ++ "-range-bound")

/-! ## Fixed GraphQL types and the oid lookup tables
(PgTypesPlugin.js lines 215-413) -/

/-- graphql-js `GraphQLString` (fixed allocation, uid 0). -/
def gqlString : GqlType := .scalar 0 "String"

/-- graphql-js `GraphQLInt` (uid 1). -/
def gqlInt : GqlType := .scalar 1 "Int"

/-- graphql-js `GraphQLFloat` (uid 2). -/
def gqlFloat : GqlType := .scalar 2 "Float"

/-- graphql-js `GraphQLBoolean` (uid 3). -/
def gqlBoolean : GqlType := .scalar 3 "Boolean"

/-- The `Interval` object type built in the hook (uid 4). -/
def gqlInterval : GqlType := .objectType 4 "Interval"

/-- The `IntervalInput` input object type (uid 5). -/
def gqlIntervalInput : GqlType := .inputObjectType 5 "IntervalInput"

/-- The `BigFloat` string scalar (uid 6). -/
def gqlBigFloat : GqlType := .scalar 6 "BigFloat"

/-- The `BitString` string scalar (uid 7). -/
def gqlBitString : GqlType := .scalar 7 "BitString"

/-- The `Date` string scalar (uid 8). -/
def gqlDate : GqlType := .scalar 8 "Date"

/-- The `Datetime` string scalar (uid 9). -/
def gqlDatetime : GqlType := .scalar 9 "Datetime"

/-- The `Time` string scalar (uid 10). -/
def gqlTime : GqlType := .scalar 10 "Time"

/-- The JSON type at default options (`pgExtendedTypes = true`,
`pgLegacyJsonUuid = false`, so `GraphQLJSON` with name `JSON`; uid 11). -/
def gqlJSON : GqlType := .scalar 11 "JSON"

/-- The `UUID` string scalar (uid 12). -/
def gqlUUID : GqlType := .scalar 12 "UUID"

/-- The `Point` object type (uid 13). -/
def gqlPoint : GqlType := .objectType 13 "Point"

/-- The `PointInput` input object type (uid 14). -/
def gqlPointInput : GqlType := .inputObjectType 14 "PointInput"

/-- The `BigInt` string scalar created in the `oidLookup` literal
(uid 15). -/
def gqlBigInt : GqlType := .scalar 15 "BigInt"

/-- First uid available for types allocated during resolution. -/
def initialUid : Nat := 16

/-- Embedding of the `oidLookup` table (PgTypesPlugin.js lines 378-409),
at the default plugin options. -/
def oidLookup : Nat → Option GqlType
  | 20 => some gqlBigInt
  | 21 => some gqlInt
  | 23 => some gqlInt
  | 700 => some gqlFloat
  | 701 => some gqlFloat
  | 1700 => some gqlBigFloat
  | 790 => some gqlFloat
  | 1186 => some gqlInterval
  | 1082 => some gqlDate
  | 1114 => some gqlDatetime
  | 1184 => some gqlDatetime
  | 1083 => some gqlTime
  | 1266 => some gqlTime
  | 114 => some gqlJSON
  | 3802 => some gqlJSON
  | 2950 => some gqlUUID
  | 1560 => some gqlBitString
  | 1562 => some gqlBitString
  | 18 => some gqlString
  | 25 => some gqlString
  | 1043 => some gqlString
  | 600 => some gqlPoint
  | _ => none

/-- Embedding of the `oidInputLookup` table (PgTypesPlugin.js lines
410-413). -/
def oidInputLookup : Nat → Option GqlType
  | 1186 => some gqlIntervalInput
  | 600 => some gqlPointInput
  | _ => none

/-! ## Build state -/

/-- Insert-or-replace on an association list, with JavaScript object
semantics: an existing key keeps its position and gets the new value, a
new key is appended. -/
def updK {α β : Type} [DecidableEq α] : List (α × β) → α → β → List (α × β)
  | [], k, v => [(k, v)]
  | (k', v') :: rest, k, v =>
      if k' = k then (k', v) :: rest else (k', v') :: updK rest k v

/-- The mutable state of the `build` hook body: the two type registries,
the named-type registry behind `addType`/`getTypeByName`, the synthesized
range codec registrations (range type id, subtype id), the category-`N`
`pgTweaksByTypeId` additions, the fresh-uid counter, and the shared
recursion-depth counter of `enforceGqlTypeByPgType`. -/
structure BuildSt where
  gql : List (Nat × GqlType)
  gqlInput : List (Nat × GqlType)
  typesByName : List (String × GqlType)
  rangeCodecs : List (Nat × Nat)
  tweaks : List Nat
  nextUid : Nat
  depth : Nat
deriving DecidableEq, Repr

/-- Modelled from the spec: `addType` of the external `graphile-build`
package (referenced by this plugin, not under `src/`): register a type
under its name for later `getTypeByName` lookups; the first registration
of a name wins. -/
def addType (st : BuildSt) (g : GqlType) : BuildSt :=
  if (List.lookup g.gqlName st.typesByName).isSome then st
  else { st with typesByName := st.typesByName ++ [(g.gqlName, g)] }

/-- Modelled from the spec: `getTypeByName` of the external
`graphile-build` package: look a type up by name. -/
def getTypeByName (st : BuildSt) (name : String) : Option GqlType :=
  List.lookup name st.typesByName

/-- Build state at the end of the plugin's static setup: the types the
hook constructs eagerly have been allocated and `addType`d
(PgTypesPlugin.js lines 215-245 and 371-376), the registries are empty
and the depth counter is zero. -/
def st0 : BuildSt :=
  { gql := []
    gqlInput := []
    typesByName :=
      [("Interval", gqlInterval), ("IntervalInput", gqlIntervalInput),
       ("BigFloat", gqlBigFloat), ("BitString", gqlBitString),
       ("JSON", gqlJSON), ("UUID", gqlUUID), ("Date", gqlDate),
       ("Datetime", gqlDatetime), ("Time", gqlTime)]
    rangeCodecs := []
    tweaks := []
    nextUid := initialUid
    depth := 0 }

/-! ## enumValues (the reduce in the enum branch,
PgTypesPlugin.js lines 521-526) -/

/-- Embedding of the enum `values` construction: fold the raw variants
into a JS object keyed by `inflection.enumName(value)`; a later variant
whose derived name collides with an earlier one silently overwrites that
entry in place. -/
def enumValues (variants : List String) : List (String × String) :=
  variants.foldl (fun memo v => updK memo (enumName v) v) []

/-! ## Type resolution (PgTypesPlugin.js lines 476-694) -/

/-- Embedding of the `indent` helper (PgTypesPlugin.js lines 25-27). -/
def indentJs (s : String) : String :=
  "  " ++ String.mk (s.data.flatMap (fun c => if c = '\n' then ['\n', ' ', ' '] else [c]))

/-- The wrapping error built in the catch block of
`enforceGqlTypeByPgType` (PgTypesPlugin.js lines 484-492): the inner
message indented under a header naming the namespace-qualified type. -/
def wrapErrMsg (ns name ttyp msg : String) : String :=
  "Error occurred when processing database type \x27" ++ ns ++ "." ++ name
    ++ "\x27 (type=" ++ ttyp ++ "):\n" ++ indentJs msg

/-- The explicit-override step (PgTypesPlugin.js lines 503-515): when no
registry entry exists for the id yet, copy the `oidLookup` /
`oidInputLookup` entry (if any) into the output / input registry. -/
def overridesStep (st : BuildSt) (tid : Nat) : BuildSt :=
  let st1 :=
    if (List.lookup tid st.gql).isNone then
      match oidLookup tid with
      | some g => { st with gql := updK st.gql tid g }
      | none => st
    else st
  if (List.lookup tid st1.gqlInput).isNone then
    match oidInputLookup tid with
    | some g => { st1 with gqlInput := updK st1.gqlInput tid g }
    | none => st1
  else st1

/-- The enum branch (PgTypesPlugin.js lines 517-528): for an unresolved
`e`-kind descriptor, allocate a `GraphQLEnumType` named by the `enumType`
inflector whose values are the `enumValues` reduce over the raw
variants. -/
def enumStep (infl : Inflection) (st : BuildSt) (tid : Nat) (ttyp : String)
    (nameTag : String) (desc : Option String) (evars : List String) : BuildSt :=
  if (List.lookup tid st.gql).isNone ∧ ttyp = "e" then
    { st with
      gql := updK st.gql tid
        (.enumType st.nextUid (infl.upperCamelCase nameTag) desc (enumValues evars))
      nextUid := st.nextUid + 1 }
  else st

/-- The part of the range branch after the subtype has been resolved
(PgTypesPlugin.js lines 534-646): reuse an existing `<Sub>Range` type
from the named-type registry, or allocate `RangeBound`,
`RangeBoundInput`, `Range`, `RangeInput` (four fresh uids; the two bound
types are reachable only through the range fields and are not retained
separately), `addType` the range pair, store the range types in the
registries and record the synthesized range codec. -/
def rangeFinish (infl : Inflection) (tid subId : Nat)
    (res : Except String GqlType × BuildSt) : Except String Unit × BuildSt :=
  match res with
  | (.error e, st') => (.error e, st')
  | (.ok subGql, st') =>
    let rName := infl.rangeTypeName subGql.gqlName
    match List.lookup rName st'.typesByName with
    | some range =>
      let rInput := List.lookup (infl.inputTypeName range.gqlName) st'.typesByName
      let stA := { st' with gql := updK st'.gql tid range }
      let stB :=
        match rInput with
        | some ri => { stA with gqlInput := updK stA.gqlInput tid ri }
        | none => stA
      (.ok (), { stB with rangeCodecs := stB.rangeCodecs ++ [(tid, subId)] })
    | none =>
      let range := GqlType.objectType (st'.nextUid + 2) rName
      let rangeInput :=
        GqlType.inputObjectType (st'.nextUid + 3) (infl.inputTypeName rName)
      let stA := { st' with nextUid := st'.nextUid + 4 }
      let stB := addType (addType stA range) rangeInput
      (.ok (), { stB with
          gql := updK stB.gql tid range
          gqlInput := updK stB.gqlInput tid rangeInput
          rangeCodecs := stB.rangeCodecs ++ [(tid, subId)] })

/-- The part of the domain branch after the base type has been resolved
(PgTypesPlugin.js lines 655-671): store a prototype alias carrying the
domain's own name and description, and a separate input alias only when
the base type's input entry exists and differs (by reference) from the
base output type. -/
def domainFinish (infl : Inflection) (tid : Nat) (nameTag : String)
    (desc : Option String) (btId : Nat)
    (res : Except String GqlType × BuildSt) : Except String Unit × BuildSt :=
  match res with
  | (.error e, st') => (.error e, st')
  | (.ok baseType, st') =>
    let baseInputType := List.lookup btId st'.gqlInput
    let outAlias :=
      GqlType.aliasType st'.nextUid (infl.upperCamelCase nameTag) desc baseType
    let stA := { st' with
        gql := updK st'.gql tid outAlias
        nextUid := st'.nextUid + 1 }
    match baseInputType with
    | some bi =>
      if bi ≠ baseType then
        (.ok (), { stA with
            gqlInput := updK stA.gqlInput tid
              (.aliasType stA.nextUid (infl.inputTypeName outAlias.gqlName) desc bi)
            nextUid := stA.nextUid + 1 })
      else (.ok (), stA)
    | none => (.ok (), stA)

/-- The part of the category-`A` fallback after the item type has been
resolved (PgTypesPlugin.js lines 287-291): wrap it in a fresh
`GraphQLList`. -/
def listFinish (tid : Nat) (res : Except String GqlType × BuildSt) :
    Except String Unit × BuildSt :=
  match res with
  | (.error e, st') => (.error e, st')
  | (.ok itemG, st') =>
    (.ok (), { st' with
        gql := updK st'.gql tid (.listType st'.nextUid itemG)
        nextUid := st'.nextUid + 1 })

/-- The common tail of the resolution (PgTypesPlugin.js lines 681-693):
terminal `GraphQLString` fallback, input fallback (reuse the output type
when it is a valid input type), `addType(getNamedType(...))` and the
return of the registry entry. -/
def tailStep (st : BuildSt) (tid : Nat) : Except String GqlType × BuildSt :=
  let st7 :=
    if (List.lookup tid st.gql).isNone then
      { st with gql := updK st.gql tid gqlString }
    else st
  match List.lookup tid st7.gql with
  | none => (.error "graphile-build-pg internal invariant: type not registered", st7)
  | some g =>
    let st8 :=
      if (List.lookup tid st7.gqlInput).isNone ∧ g.isInputType then
        { st7 with gqlInput := updK st7.gqlInput tid g }
      else st7
    (.ok g, addType st8 (getNamedType g))

/-- The exit bookkeeping of `enforceGqlTypeByPgType` (PgTypesPlugin.js
lines 482-495): wrap an inner error with the namespace-qualified type
name and decrement the shared depth counter on both exits of the
try/catch/finally. -/
def finishEnforce (ns name ttyp : String)
    (inner : Except String GqlType × BuildSt) : Except String GqlType × BuildSt :=
  match inner with
  | (.ok g, st') => (.ok g, { st' with depth := st'.depth - 1 })
  | (.error e, st') =>
      (.error (wrapErrMsg ns name ttyp e), { st' with depth := st'.depth - 1 })

/-- Embedding of `enforceGqlTypeByPgType` together with the inlined body
of `reallyEnforceGqlTypeByPgType` (PgTypesPlugin.js lines 476-694),
step-indexed by a fuel so that Lean accepts and unfolds the recursion.

The fuel is a proof artifact, not part of the modelled code: the shared
`depth` counter itself bounds the recursion (the guard errors out as
soon as the incremented counter exceeds 50), the zero-fuel arm returns
exactly the result the depth guard produces in the only states where
zero fuel is reachable, and `enforceF_fuel_irrelevant` proves the result
independent of the fuel whenever `50 ≤ fuel + depth`, which the official
entry point `enforceGqlTypeByPgType` (fuel 50) satisfies from every
state.

Each call increments the shared `depth` counter, throws the
recursion-limit error when the incremented counter exceeds 50 (this
throw happens before the `try`, so the `finally` decrement is skipped on
exactly this path), and otherwise runs the real resolution inside
try/catch/finally (`finishEnforce`).  The inner body checks, in source
order: invalid (falsy) id; explicit overrides (`overridesStep`); the
enum branch (`enumStep`); the range branch (resolve the subtype
recursively, then `rangeFinish`); the domain branch (resolve the base
recursively, then `domainFinish`); the category fallback (`B` boolean,
`N` BigFloat plus a text tweak, `A` list of the recursively resolved
item type via `listFinish`); then the common tail (`tailStep`). -/
def enforceF (infl : Inflection) : Nat → BuildSt → PgType → Except String GqlType × BuildSt
  | 0, st, _ =>
      (.error "Type enforcement went too deep - infinite loop?",
       { st with depth := st.depth + 1 })
  | fuel + 1, st, t =>
    match t with
    | .mk tid tname tns ttyp tcat tdesc ttag tdbase _tisArr taitem trsub tevars =>
      let stIn := { st with depth := st.depth + 1 }
      if stIn.depth > 50 then
        (.error "Type enforcement went too deep - infinite loop?", stIn)
      else
        finishEnforce tns tname ttyp (
        if tid = 0 then
          (.error ("Invalid argument to enforceGqlTypeByPgType - expected a full type, received \x27"
            ++ tname ++ "\x27"), stIn)
        else
          let st3 := enumStep infl (overridesStep stIn tid) tid ttyp (ttag.getD tname) tdesc tevars
          let rangeRes : Except String Unit × BuildSt :=
            if (List.lookup tid st3.gql).isNone ∧ ttyp = "r" then
              match trsub with
              | none =>
                  (.error "TypeError: range subtype missing from introspection results", st3)
              | some sub =>
                  rangeFinish infl tid sub.id (enforceF infl fuel st3 sub)
            else (.ok (), st3)
          match rangeRes with
          | (.error e, stE) => (.error e, stE)
          | (.ok _, st4) =>
            let domainRes : Except String Unit × BuildSt :=
              match tdbase with
              | some bt =>
                if (List.lookup tid st4.gql).isNone ∧ ttyp = "d" ∧ bt.id ≠ 0 then
                  domainFinish infl tid (ttag.getD tname) tdesc bt.id
                    (enforceF infl fuel st4 bt)
                else (.ok (), st4)
              | none => (.ok (), st4)
            match domainRes with
            | (.error e, stE) => (.error e, stE)
            | (.ok _, st5) =>
              let catRes : Except String Unit × BuildSt :=
                if (List.lookup tid st5.gql).isNone then
                  if tcat = "B" then
                    (.ok (), { st5 with gql := updK st5.gql tid gqlBoolean })
                  else if tcat = "N" then
                    (.ok (), { st5 with
                        gql := updK st5.gql tid gqlBigFloat
                        tweaks := tid :: st5.tweaks })
                  else if tcat = "A" then
                    match taitem with
                    | none =>
                        (.error "TypeError: array item type missing from introspection results",
                         st5)
                    | some it => listFinish tid (enforceF infl fuel st5 it)
                  else (.ok (), st5)
                else (.ok (), st5)
              match catRes with
              | (.error e, stE) => (.error e, stE)
              | (.ok _, st6) => tailStep st6 tid)

/-- The resolver `enforceGqlTypeByPgType` itself: `enforceF` at fuel 50,
which `enforceF_fuel_irrelevant` shows is enough from every state. -/
def enforceGqlTypeByPgType (infl : Inflection) (st : BuildSt) (t : PgType) :
    Except String GqlType × BuildSt :=
  enforceF infl 50 st t

/-! ## Node identifiers (PgBasicsPlugin.js bundle: NodePlugin) -/

/-- UTF-8 encoding of one character, as the bytes of Node's
`Buffer(str)`; bytes are `Nat`s below 256.  The `Buffer` class is
external to this repository and is embedded at its interface. -/
def utf8Bytes (c : Char) : List Nat :=
  let n := c.toNat
  if n < 128 then [n]
  else if n < 2048 then [192 + n / 64, 128 + n % 64]
  else if n < 65536 then [224 + n / 4096, 128 + n / 64 % 64, 128 + n % 64]
  else [240 + n / 262144, 128 + n / 4096 % 64, 128 + n / 64 % 64, 128 + n % 64]

/-- The base64 alphabet of RFC 4648, as used by Node's
`buffer.toString("base64")`. -/
def base64Alphabet : List Char :=
  "ABCDEFGHIJKLMNOPQRSTUVWXYZabcdefghijklmnopqrstuvwxyz0123456789+/".data

/-- The base64 digit of one six-bit group. -/
def b64Digit (n : Nat) : Char := (base64Alphabet.drop n).headD 'A'

/-- RFC 4648 base64 of a byte sequence (Node's
`buffer.toString("base64")`, external to this repository, embedded at
its interface): each group of three bytes becomes four six-bit digits; a
trailing group of one or two bytes is padded with `=`. -/
def base64Encode : List Nat → String
  | [] => ""
  | [b0] => String.mk [b64Digit (b0 / 4), b64Digit (b0 % 4 * 16), '=', '=']
  | [b0, b1] => String.mk [b64Digit (b0 / 4), b64Digit (b0 % 4 * 16 + b1 / 16),
      b64Digit (b1 % 16 * 4), '=']
  | b0 :: b1 :: b2 :: rest =>
      String.mk [b64Digit (b0 / 4), b64Digit (b0 % 4 * 16 + b1 / 16),
        b64Digit (b1 % 16 * 4 + b2 / 64), b64Digit (b2 % 64)] ++ base64Encode rest

/-- Embedding of the `base64` helper (PgBasicsPlugin.js bundle line 45):
`str => new Buffer(String(str)).toString("base64")`. -/
def base64 (s : String) : String := base64Encode (s.data.flatMap utf8Bytes)

/-- Embedding of `getNodeAlias` (PgBasicsPlugin.js bundle lines
101-103): `nodeAliasByTypeName[typeName] || typeName` — the stored
alias when present and truthy (a stored empty string is falsy in JS and
falls back to the type's own name). -/
def getNodeAlias (aliases : List (String × String)) (typeName : String) : String :=
  match List.lookup typeName aliases with
  | some a => if a = "" then typeName else a
  | none => typeName

/-- Embedding of `getNodeIdForTypeAndIdentifiers` (PgBasicsPlugin.js
bundle lines 87-91): base64 of the JSON serialization of the array
`[this.getNodeAlias(Type), ...identifiers]`. -/
def getNodeIdForTypeAndIdentifiers (aliases : List (String × String))
    (typeName : String) (identifiers : List Val) : String :=
  base64 (jsonStringify (.arr (.str (getNodeAlias aliases typeName) :: identifiers)))

/-! ## Concrete inputs for the testable properties -/

/-- Concrete naming-service instance used for witnesses: the identity
casing function (any instance works for the general theorems). -/
def inflId : Inflection := { upperCamelCase := id }

/-- Chain of `n + 1` descriptors: `chainType 0` is a base type of
category `S`, `chainType (k+1)` is a domain over `chainType k`; ids are
`2000 + k`, chosen so that no descriptor in the chain hits the explicit
oid overrides. -/
def chainType : Nat → PgType
  | 0 => .mk 2000 "chain0" "public" "b" "S" none none none false none none []
  | n + 1 => .mk (2000 + n + 1) ("chain" ++ toString (n + 1)) "public" "d" "S"
      none none (some (chainType n)) false none none []

/-- Expected resolution result of `chainType k` when the first fresh uid
is `u`: nested prototype aliases over `GraphQLString`. -/
def chainGql : Nat → Nat → GqlType
  | 0, _ => gqlString
  | k + 1, u => .aliasType (u + k) ("chain" ++ toString (k + 1)) none (chainGql k u)

/-- The recursion-limit error message. -/
def tooDeepMsg : String := "Type enforcement went too deep - infinite loop?"

theorem overridesStep_depth (st : BuildSt) (tid : Nat) :
    (overridesStep st tid).depth = st.depth := by
  simp only [overridesStep]
  repeat' split
  all_goals rfl

theorem enumStep_depth (infl : Inflection) (st : BuildSt) (tid : Nat) (ttyp : String)
    (nameTag : String) (desc : Option String) (evars : List String) :
    (enumStep infl st tid ttyp nameTag desc evars).depth = st.depth := by
  unfold enumStep
  split <;> rfl

/-- Definitional unfolding of `enforceF` at successor fuel on an explicit
descriptor; used to reason about the resolver without re-unfolding the
recursive occurrences. -/
theorem enforceF_mk_unfold (infl : Inflection) (fuel : Nat) (st : BuildSt)
    (tid : Nat) (tname tns ttyp tcat : String) (tdesc ttag : Option String)
    (tdbase : Option PgType) (tisArr : Bool) (taitem trsub : Option PgType)
    (tevars : List String) :
    enforceF infl (fuel + 1) st
      (.mk tid tname tns ttyp tcat tdesc ttag tdbase tisArr taitem trsub tevars) =
    (let stIn := { st with depth := st.depth + 1 }
     if stIn.depth > 50 then
      (.error "Type enforcement went too deep - infinite loop?", stIn)
     else
      finishEnforce tns tname ttyp (
        if tid = 0 then
          (.error ("Invalid argument to enforceGqlTypeByPgType - expected a full type, received \x27"
            ++ tname ++ "\x27"), stIn)
        else
          let st3 := enumStep infl (overridesStep stIn tid) tid ttyp (ttag.getD tname) tdesc tevars
          let rangeRes : Except String Unit × BuildSt :=
            if (List.lookup tid st3.gql).isNone ∧ ttyp = "r" then
              match trsub with
              | none =>
                  (.error "TypeError: range subtype missing from introspection results", st3)
              | some sub =>
                  rangeFinish infl tid sub.id (enforceF infl fuel st3 sub)
            else (.ok (), st3)
          match rangeRes with
          | (.error e, stE) => (.error e, stE)
          | (.ok _, st4) =>
            let domainRes : Except String Unit × BuildSt :=
              match tdbase with
              | some bt =>
                if (List.lookup tid st4.gql).isNone ∧ ttyp = "d" ∧ bt.id ≠ 0 then
                  domainFinish infl tid (ttag.getD tname) tdesc bt.id
                    (enforceF infl fuel st4 bt)
                else (.ok (), st4)
              | none => (.ok (), st4)
            match domainRes with
            | (.error e, stE) => (.error e, stE)
            | (.ok _, st5) =>
              let catRes : Except String Unit × BuildSt :=
                if (List.lookup tid st5.gql).isNone then
                  if tcat = "B" then
                    (.ok (), { st5 with gql := updK st5.gql tid gqlBoolean })
                  else if tcat = "N" then
                    (.ok (), { st5 with
                        gql := updK st5.gql tid gqlBigFloat
                        tweaks := tid :: st5.tweaks })
                  else if tcat = "A" then
                    match taitem with
                    | none =>
                        (.error "TypeError: array item type missing from introspection results",
                         st5)
                    | some it => listFinish tid (enforceF infl fuel st5 it)
                  else (.ok (), st5)
                else (.ok (), st5)
              match catRes with
              | (.error e, stE) => (.error e, stE)
              | (.ok _, st6) => tailStep st6 tid)) := rfl

/-! ## Association-list and state toolkit -/

theorem lookup_updK_self {β : Type} (l : List (Nat × β)) (k : Nat) (v : β) :
    List.lookup k (updK l k v) = some v := by
  induction l with
  | nil => simp [updK, List.lookup]
  | cons p rest ih =>
      obtain ⟨a, b⟩ := p
      by_cases h : a = k
      · subst h
        simp [updK, List.lookup]
      · have hba : (k == a) = false := by simp [Ne.symm h]
        simp [updK, if_neg h, List.lookup, hba, ih]

theorem lookup_updK_ne {β : Type} (l : List (Nat × β)) (k k' : Nat) (v : β)
    (h : k' ≠ k) : List.lookup k' (updK l k v) = List.lookup k' l := by
  induction l with
  | nil =>
      have hkk : (k' == k) = false := by simp [h]
      simp [updK, List.lookup, hkk]
  | cons p rest ih =>
      obtain ⟨a, b⟩ := p
      by_cases hp : a = k
      · subst hp
        have hba : (k' == a) = false := by simp [h]
        simp [updK, List.lookup, hba]
      · by_cases hk' : k' = a
        · subst hk'
          simp [updK, if_neg hp, List.lookup]
        · have hba : (k' == a) = false := by simp [hk']
          simp [updK, if_neg hp, List.lookup, hba, ih]

theorem oidLookup_ge_2000 (m : Nat) (h : 2000 ≤ m) (h' : m < 2900) :
    oidLookup m = none := by
  unfold oidLookup
  split <;> first | rfl | exact absurd h (by omega) | exact absurd h' (by omega)

theorem oidInputLookup_ge_2000 (m : Nat) (h : 2000 ≤ m) (h' : m < 2900) :
    oidInputLookup m = none := by
  unfold oidInputLookup
  split <;> first | rfl | exact absurd h (by omega) | exact absurd h' (by omega)

theorem addType_gql (st : BuildSt) (g : GqlType) : (addType st g).gql = st.gql := by
  unfold addType; split <;> rfl

theorem addType_gqlInput (st : BuildSt) (g : GqlType) :
    (addType st g).gqlInput = st.gqlInput := by
  unfold addType; split <;> rfl

theorem addType_depth (st : BuildSt) (g : GqlType) : (addType st g).depth = st.depth := by
  unfold addType; split <;> rfl

theorem addType_nextUid (st : BuildSt) (g : GqlType) :
    (addType st g).nextUid = st.nextUid := by
  unfold addType; split <;> rfl

theorem chainType_id (n : Nat) : (chainType n).id = 2000 + n := by
  cases n <;> simp [chainType, PgType.id] <;> omega

/-! ## Step-level lemmas -/

theorem overridesStep_noop (st : BuildSt) (tid : Nat)
    (h1 : oidLookup tid = none) (h2 : oidInputLookup tid = none) :
    overridesStep st tid = st := by
  simp [overridesStep, h1, h2]

theorem overridesStep_gql_cached (st : BuildSt) (tid : Nat) {T : GqlType}
    (h : List.lookup tid st.gql = some T) :
    (overridesStep st tid).gql = st.gql := by
  simp only [overridesStep, h, Option.isNone_some, Bool.false_eq_true, if_false]
  repeat' split
  all_goals rfl

theorem overridesStep_lookup_cached (st : BuildSt) (tid : Nat) {T : GqlType}
    (h : List.lookup tid st.gql = some T) :
    List.lookup tid (overridesStep st tid).gql = some T := by
  rw [overridesStep_gql_cached st tid h, h]

theorem enumStep_noop (infl : Inflection) (st : BuildSt) (tid : Nat) (ttyp : String)
    (nameTag : String) (desc : Option String) (evars : List String)
    (h : ¬ ((List.lookup tid st.gql).isNone = true ∧ ttyp = "e")) :
    enumStep infl st tid ttyp nameTag desc evars = st := by
  simp only [enumStep]
  rw [if_neg]
  simpa using h

theorem enumStep_gql_cached (infl : Inflection) (st : BuildSt) (tid : Nat)
    (ttyp : String) (nameTag : String) (desc : Option String) (evars : List String)
    {T : GqlType} (h : List.lookup tid st.gql = some T) :
    enumStep infl st tid ttyp nameTag desc evars = st := by
  apply enumStep_noop
  simp [h]

/-- Value and state of `tailStep` when the registry already holds an
entry for the id. -/
theorem tailStep_cached (st : BuildSt) (tid : Nat) {T : GqlType}
    (h : List.lookup tid st.gql = some T) :
    tailStep st tid =
      (.ok T,
       addType
         (if (List.lookup tid st.gqlInput).isNone ∧ T.isInputType then
            { st with gqlInput := updK st.gqlInput tid T }
          else st)
         (getNamedType T)) := by
  simp only [tailStep, h, Option.isNone_some, Bool.false_eq_true, if_false]

/-- Value and state of `tailStep` when the registry has no entry yet:
the terminal fallback stores `GraphQLString` and returns it. -/
theorem tailStep_fresh (st : BuildSt) (tid : Nat)
    (h : List.lookup tid st.gql = none) :
    tailStep st tid =
      (.ok gqlString,
       addType
         (if (List.lookup tid st.gqlInput).isNone ∧ GqlType.isInputType gqlString then
            { st with gql := updK st.gql tid gqlString,
                      gqlInput := updK st.gqlInput tid gqlString }
          else { st with gql := updK st.gql tid gqlString })
         (getNamedType gqlString)) := by
  simp only [tailStep, h, Option.isNone_none, if_true, lookup_updK_self]

/-- Successful `tailStep` runs always return the (possibly just stored)
registry entry for the id, and the returned state still holds it. -/
theorem tailStep_ok (st : BuildSt) (tid : Nat) {g : GqlType} {st' : BuildSt}
    (h : tailStep st tid = (.ok g, st')) :
    List.lookup tid st'.gql = some g := by
  rcases hc : List.lookup tid st.gql with _ | T
  · rw [tailStep_fresh st tid hc] at h
    have h1 : gqlString = g := by simpa using congrArg (fun p => p.1) h
    have h2 := congrArg (fun p => p.2) h
    simp only at h2
    subst h1
    rw [← h2, addType_gql]
    split
    · simp [lookup_updK_self]
    · simp [lookup_updK_self]
  · rw [tailStep_cached st tid hc] at h
    have h1 : T = g := by simpa using congrArg (fun p => p.1) h
    have h2 := congrArg (fun p => p.2) h
    simp only at h2
    subst h1
    rw [← h2, addType_gql]
    split
    · exact hc
    · exact hc

/-- Hot-path execution of the resolver: when the output registry already
holds an entry for the descriptor's id (and the id is valid and the
depth guard passes), no branch fires — the call reduces to the override
step, the common tail and the exit bookkeeping, and in particular no
recursion happens and the stored entry is returned as-is. -/
theorem enforce_cached (infl : Inflection) (fuel : Nat) (st : BuildSt) (t : PgType)
    {T : GqlType} (hT : List.lookup t.id st.gql = some T) (h0 : t.id ≠ 0)
    (hd : st.depth + 1 ≤ 50) :
    enforceF infl (fuel + 1) st t =
      finishEnforce t.namespaceName t.name t.typtype
        (tailStep (overridesStep { st with depth := st.depth + 1 } t.id) t.id) := by
  obtain ⟨tid, tname, tns, ttyp, tcat, tdesc, ttag, tdbase, tisArr, taitem, trsub, tevars⟩ := t
  simp only [PgType.id] at hT h0
  simp only [PgType.id, PgType.name, PgType.namespaceName, PgType.typtype]
  rw [enforceF_mk_unfold]
  dsimp only
  rw [if_neg (by omega : ¬ (st.depth + 1 > 50)), if_neg h0]
  have hov : List.lookup tid (overridesStep { st with depth := st.depth + 1 } tid).gql
      = some T := overridesStep_lookup_cached _ tid hT
  rw [enumStep_gql_cached _ _ _ _ _ _ _ hov]
  have hnr : ¬ ((List.lookup tid (overridesStep { st with depth := st.depth + 1 } tid).gql).isNone
      = true ∧ ttyp = "r") := by simp [hov]
  rw [if_neg hnr]
  dsimp only
  have hnc : ¬ ((List.lookup tid (overridesStep { st with depth := st.depth + 1 } tid).gql).isNone
      = true) := by simp [hov]
  cases tdbase
  case none =>
    dsimp only
    rw [if_neg hnc]
  case some bt =>
    have hnd : ¬ ((List.lookup tid (overridesStep { st with depth := st.depth + 1 } tid).gql).isNone
        = true ∧ ttyp = "d" ∧ bt.id ≠ 0) := by simp [hov]
    dsimp only
    rw [if_neg hnd]
    dsimp only
    rw [if_neg hnc]

theorem finishEnforce_ok_inv (ns nm tt : String) (X : Except String GqlType × BuildSt)
    (g : GqlType) (st₁ : BuildSt) (h : finishEnforce ns nm tt X = (.ok g, st₁)) :
    ∃ stX, X = (.ok g, stX) ∧ st₁ = { stX with depth := stX.depth - 1 } := by
  obtain ⟨res, stX⟩ := X
  cases res with
  | error e => simp [finishEnforce] at h
  | ok g' =>
      simp only [finishEnforce, Prod.mk.injEq, Except.ok.injEq] at h
      exact ⟨stX, by simp [h.1], h.2.symm⟩

/-- Every successful resolver run leaves the returned type stored in the
output registry under the descriptor's id (it is in fact returned from
there), and successful runs only happen for valid ids. -/
theorem enforce_ok_cache (infl : Inflection) (fuel : Nat) (st : BuildSt) (t : PgType)
    {T : GqlType} {st₁ : BuildSt}
    (h : enforceF infl (fuel + 1) st t = (.ok T, st₁)) :
    List.lookup t.id st₁.gql = some T ∧ t.id ≠ 0 := by
  obtain ⟨tid, tname, tns, ttyp, tcat, tdesc, ttag, tdbase, tisArr, taitem, trsub, tevars⟩ := t
  simp only [PgType.id]
  rw [enforceF_mk_unfold] at h
  dsimp only at h
  split at h
  · exact absurd h (by simp)
  · obtain ⟨stX, hX, hst₁⟩ := finishEnforce_ok_inv _ _ _ _ _ _ h
    have hgoal : List.lookup tid stX.gql = some T ∧ tid ≠ 0 := by
      split at hX
      · exact absurd hX (by simp)
      · next hid =>
          refine ⟨?_, hid⟩
          split at hX
          · exact absurd hX (by simp)
          · split at hX
            · exact absurd hX (by simp)
            · split at hX
              · exact absurd hX (by simp)
              · exact tailStep_ok _ _ hX
    exact ⟨by rw [hst₁]; exact hgoal.1, hgoal.2⟩

/-! ## Claim C3 -/

/-- C3: for every descriptor, once a resolution has succeeded and stored
its result in the type registry, resolving the same descriptor again
returns the very same type object (the stored entry, i.e. the identical
reference in the uid model, not a structurally-equal copy), and the
output type registry is not modified — in particular the entry for the
descriptor's id is never overwritten by the second resolution. -/
theorem resolve_idempotent (infl : Inflection) (st : BuildSt) (t : PgType)
    (T : GqlType) (st₁ : BuildSt)
    (h : enforceGqlTypeByPgType infl st t = (.ok T, st₁))
    (hd : st₁.depth < 50) :
    (enforceGqlTypeByPgType infl st₁ t).1 = .ok T ∧
    (enforceGqlTypeByPgType infl st₁ t).2.gql = st₁.gql ∧
    List.lookup t.id st₁.gql = some T := by
  obtain ⟨hT, h0⟩ := enforce_ok_cache infl 49 st t h
  have h2 := enforce_cached infl 49 st₁ t hT h0 (by omega)
  have htail := tailStep_cached (overridesStep { st₁ with depth := st₁.depth + 1 } t.id) t.id
    (overridesStep_lookup_cached { st₁ with depth := st₁.depth + 1 } t.id hT)
  refine ⟨?_, ?_, hT⟩
  · show (enforceF infl 50 st₁ t).1 = .ok T
    rw [h2, htail]
    rfl
  · show (enforceF infl 50 st₁ t).2.gql = st₁.gql
    rw [h2, htail]
    show (addType _ (getNamedType T)).gql = st₁.gql
    rw [addType_gql]
    have hov := overridesStep_gql_cached { st₁ with depth := st₁.depth + 1 } t.id hT
    split
    · exact hov
    · exact hov

/-- Witness for C3 at a concrete input: the plain `chain0` base
descriptor resolved from the initial state resolves to `GraphQLString`,
and a second resolution returns the identical object with the registry
untouched. -/
theorem resolve_idempotent_witness :
    (enforceGqlTypeByPgType inflId
        (enforceGqlTypeByPgType inflId st0 (chainType 0)).2 (chainType 0)).1 = .ok gqlString ∧
    (enforceGqlTypeByPgType inflId
        (enforceGqlTypeByPgType inflId st0 (chainType 0)).2 (chainType 0)).2.gql =
      (enforceGqlTypeByPgType inflId st0 (chainType 0)).2.gql :=
  ⟨(resolve_idempotent inflId st0 (chainType 0) gqlString
      (enforceGqlTypeByPgType inflId st0 (chainType 0)).2 rfl (by decide)).1,
   (resolve_idempotent inflId st0 (chainType 0) gqlString
      (enforceGqlTypeByPgType inflId st0 (chainType 0)).2 rfl (by decide)).2.1⟩

/-! ## Claim C1: the depth guard on nested domain chains -/

theorem chainGql_isInput (k u : Nat) : (chainGql k u).isInputType = true := by
  induction k with
  | zero => rfl
  | succ k ih => simpa [chainGql, GqlType.isInputType] using ih

/-- Successful resolution of a `chainType n` domain chain: with enough
depth headroom (`depth + n + 1 ≤ 50`), enough fuel and fresh chain ids,
the chain resolves to the nested alias value, the depth counter is
restored, `n` fresh uids are consumed, both registries hold the chain
entry, and entries at unrelated ids are untouched. -/
theorem chain_ok (n : Nat) : ∀ (fuel : Nat) (st : BuildSt),
    st.depth + n + 1 ≤ 50 → n + 1 ≤ fuel →
    (∀ k, k ≤ n → List.lookup (2000 + k) st.gql = none) →
    (∀ k, k ≤ n → List.lookup (2000 + k) st.gqlInput = none) →
    ∃ st', enforceF inflId fuel st (chainType n) = (.ok (chainGql n st.nextUid), st') ∧
      st'.depth = st.depth ∧ st'.nextUid = st.nextUid + n ∧
      List.lookup (2000 + n) st'.gql = some (chainGql n st.nextUid) ∧
      List.lookup (2000 + n) st'.gqlInput = some (chainGql n st.nextUid) ∧
      (∀ j, (∀ k, k ≤ n → j ≠ 2000 + k) → List.lookup j st'.gql = List.lookup j st.gql) ∧
      (∀ j, (∀ k, k ≤ n → j ≠ 2000 + k) →
        List.lookup j st'.gqlInput = List.lookup j st.gqlInput) := by
  induction n with
  | zero =>
      intro fuel st hdep hfuel hg hi
      obtain ⟨f, rfl⟩ : ∃ f, fuel = f + 1 := ⟨fuel - 1, by omega⟩
      have hg0 : List.lookup 2000 st.gql = none := by simpa using hg 0 (by omega)
      have hi0 : List.lookup 2000 st.gqlInput = none := by simpa using hi 0 (by omega)
      rw [show chainType 0 =
        PgType.mk 2000 "chain0" "public" "b" "S" none none none false none none [] from rfl]
      rw [enforceF_mk_unfold]
      dsimp only
      rw [if_neg (by omega : ¬ (st.depth + 1 > 50))]
      rw [if_neg (by decide : ¬ ((2000 : Nat) = 0))]
      rw [overridesStep_noop _ _ (oidLookup_ge_2000 2000 (by omega) (by omega))
        (oidInputLookup_ge_2000 2000 (by omega) (by omega))]
      rw [enumStep_noop _ _ _ _ _ _ _ (by simp)]
      rw [if_neg (by simp : ¬ ((List.lookup 2000
        ({ st with depth := st.depth + 1 } : BuildSt).gql).isNone = true ∧
        ("b" : String) = "r"))]
      dsimp only
      rw [if_neg (by simp : ¬ (("S" : String) = "B")),
        if_neg (by simp : ¬ (("S" : String) = "N")),
        if_neg (by simp : ¬ (("S" : String) = "A"))]
      rw [if_pos (by simp [hg0] :
        (List.lookup 2000 ({ st with depth := st.depth + 1 } : BuildSt).gql).isNone = true)]
      dsimp only
      rw [tailStep_fresh _ _ (by simpa using hg0)]
      rw [if_pos (by exact ⟨by simpa using hi0, rfl⟩)]
      refine ⟨_, rfl, ?_, ?_, ?_, ?_, ?_, ?_⟩
      · simp [finishEnforce, addType_depth]
      · simp [finishEnforce, addType_nextUid, chainGql]
      · simp only [finishEnforce]
        rw [addType_gql]
        simpa [chainGql] using lookup_updK_self st.gql 2000 gqlString
      · simp only [finishEnforce]
        rw [addType_gqlInput]
        simpa [chainGql] using lookup_updK_self st.gqlInput 2000 gqlString
      · intro j hj
        have hj0 : j ≠ 2000 := by simpa using hj 0 (by omega)
        simp only [finishEnforce]
        rw [addType_gql]
        exact lookup_updK_ne st.gql 2000 j gqlString hj0
      · intro j hj
        have hj0 : j ≠ 2000 := by simpa using hj 0 (by omega)
        simp only [finishEnforce]
        rw [addType_gqlInput]
        exact lookup_updK_ne st.gqlInput 2000 j gqlString hj0
  | succ n ih =>
      intro fuel st hdep hfuel hg hi
      obtain ⟨f, rfl⟩ : ∃ f, fuel = f + 1 := ⟨fuel - 1, by omega⟩
      have hgS : List.lookup (2000 + n + 1) st.gql = none := by
        have := hg (n + 1) (by omega)
        simpa [Nat.add_assoc] using this
      have hiS : List.lookup (2000 + n + 1) st.gqlInput = none := by
        have := hi (n + 1) (by omega)
        simpa [Nat.add_assoc] using this
      obtain ⟨st', hEq, hdepth', huid', hlook', hlookI', hframe', hframeI'⟩ :=
        ih f { st with depth := st.depth + 1 } (by simpa using (by omega : st.depth + 1 + n + 1 ≤ 50))
          (by omega)
          (fun k hk => by simpa using hg k (by omega))
          (fun k hk => by simpa using hi k (by omega))
      rw [show chainType (n + 1) =
        PgType.mk (2000 + n + 1) ("chain" ++ toString (n + 1)) "public" "d" "S"
          none none (some (chainType n)) false none none [] from rfl]
      rw [enforceF_mk_unfold]
      dsimp only
      simp only [Option.getD_none]
      rw [if_neg (by omega : ¬ (st.depth + 1 > 50))]
      rw [if_neg (by omega : ¬ (2000 + n + 1 = 0))]
      rw [overridesStep_noop _ _ (oidLookup_ge_2000 (2000 + n + 1) (by omega) (by omega))
        (oidInputLookup_ge_2000 (2000 + n + 1) (by omega) (by omega))]
      rw [enumStep_noop _ _ _ _ _ _ _ (by simp)]
      rw [if_neg (by simp : ¬ ((List.lookup (2000 + n + 1)
        ({ st with depth := st.depth + 1 } : BuildSt).gql).isNone = true ∧
        ("d" : String) = "r"))]
      dsimp only
      rw [if_pos (show (List.lookup (2000 + n + 1) st.gql).isNone = true ∧
        True ∧ (chainType n).id ≠ 0 from
        ⟨by simp [hgS], trivial, by rw [chainType_id]; omega⟩)]
      rw [hEq]
      simp only [domainFinish]
      rw [chainType_id]
      rw [show List.lookup (2000 + n) st'.gqlInput = some (chainGql n st.nextUid) from hlookI']
      dsimp only
      rw [if_neg (by simp : ¬ (chainGql n st.nextUid ≠ chainGql n st.nextUid))]
      dsimp only
      rw [if_neg (by simp [lookup_updK_self] : ¬ ((List.lookup (2000 + n + 1)
        (updK st'.gql (2000 + n + 1)
          (GqlType.aliasType st'.nextUid (inflId.upperCamelCase ("chain" ++ toString (n + 1)))
            none (chainGql n st.nextUid)))).isNone = true))]
      have hinpS : List.lookup (2000 + n + 1) st'.gqlInput = none := by
        rw [hframeI' (2000 + n + 1) (fun k hk => by omega)]
        simpa using hiS
      dsimp only
      rw [tailStep_cached _ _ (lookup_updK_self st'.gql (2000 + n + 1) _)]
      dsimp only
      have h1 : (List.lookup (2000 + n + 1) st'.gqlInput).isNone = true := by
        simp [hinpS]
      have h2 : (GqlType.aliasType st'.nextUid
          (inflId.upperCamelCase ("chain" ++ toString (n + 1)))
          none (chainGql n st.nextUid)).isInputType = true := by
        simpa [GqlType.isInputType] using chainGql_isInput n st.nextUid
      rw [if_pos (And.intro h1 h2)]
      have huidN : st'.nextUid = st.nextUid + n := by simpa using huid'
      have hdepN : st'.depth = st.depth + 1 := by simpa using hdepth'
      rw [huidN, hdepN]
      refine ⟨_, rfl, ?_, ?_, ?_, ?_, ?_, ?_⟩
      · dsimp only
        rw [addType_depth]
        dsimp only
        omega
      · dsimp only
        rw [addType_nextUid]
        dsimp only
        omega
      · dsimp only
        rw [addType_gql]
        dsimp only
        rw [show 2000 + (n + 1) = 2000 + n + 1 by omega]
        rw [lookup_updK_self]
        simp [chainGql, inflId]
      · dsimp only
        rw [addType_gqlInput]
        dsimp only
        rw [show 2000 + (n + 1) = 2000 + n + 1 by omega]
        rw [lookup_updK_self]
        simp [chainGql, inflId]
      · intro j hj
        dsimp only
        rw [addType_gql]
        dsimp only
        rw [lookup_updK_ne _ _ _ _ (by
          have := hj (n + 1) (by omega)
          omega)]
        exact hframe' j (fun k hk => hj k (by omega))
      · intro j hj
        dsimp only
        rw [addType_gqlInput]
        dsimp only
        rw [lookup_updK_ne _ _ _ _ (by
          have := hj (n + 1) (by omega)
          omega)]
        exact hframeI' j (fun k hk => hj k (by omega))

/-- The depth guard: from any state whose counter is already at 50 or
more, the resolver fails immediately with the recursion-limit error at
every fuel (the zero-fuel arm of `enforceF` returns the same result, so
the fuel is irrelevant here), leaving the counter incremented — the
throw at PgTypesPlugin.js line 479 happens before the `try`, so the
`finally` decrement is skipped on exactly this path. -/
theorem enforceF_deep (infl : Inflection) (fuel : Nat) (st : BuildSt) (t : PgType)
    (h : 50 ≤ st.depth) :
    enforceF infl fuel st t =
      (.error "Type enforcement went too deep - infinite loop?",
       { st with depth := st.depth + 1 }) := by
  cases fuel with
  | zero => rfl
  | succ f =>
      cases t with
      | mk tid tname tns ttyp tcat tdesc ttag tdbase tisArr taitem trsub tevars =>
          rw [enforceF_mk_unfold]
          dsimp only
          rw [if_pos (show st.depth + 1 > 50 by omega)]

/-- `indent` leaves a newline-free list of characters unchanged. -/
theorem flatMap_no_newline (l : List Char) (h : ∀ c ∈ l, ¬ c = '\n') :
    l.flatMap (fun c => if c = '\n' then ['\n', ' ', ' '] else [c]) = l := by
  induction l with
  | nil => rfl
  | cons c cs ih =>
      simp only [List.flatMap_cons]
      rw [if_neg (h c (by simp))]
      simp only [List.singleton_append, List.cons.injEq, true_and]
      exact ih (fun c' hc' => h c' (by simp [hc']))

/-- Resolving a fresh domain chain from too deep a starting counter
fails: the recursion-limit error (wrapped once per enclosing level, the
original text surviving as a suffix) propagates to the top, and the
top-level counter ends at its starting value plus one — each enclosing
level's `finally` decrement cancels its own increment, but the level
that threw the guard error skipped its decrement. -/
theorem chain_fail (n : Nat) : ∀ (fuel : Nat) (st : BuildSt),
    50 ≤ fuel + st.depth →
    50 < st.depth + n + 1 →
    n < 900 →
    (∀ k ≤ n, List.lookup (2000 + k) st.gql = none) →
    ∃ msg, enforceF inflId fuel st (chainType n) =
        (.error msg, { st with depth := st.depth + 1 }) ∧
      ∃ p, msg.data = p ++ tooDeepMsg.data := by
  induction n with
  | zero =>
      intro fuel st hfuel hdeep hbound hg
      refine ⟨tooDeepMsg, ?_, [], rfl⟩
      exact enforceF_deep inflId fuel st (chainType 0) (by omega)
  | succ n ih =>
      intro fuel st hfuel hdeep hbound hg
      by_cases hd : 50 ≤ st.depth
      · exact ⟨tooDeepMsg, enforceF_deep inflId fuel st (chainType (n + 1)) hd, [], rfl⟩
      · obtain ⟨f, rfl⟩ : ∃ f, fuel = f + 1 := ⟨fuel - 1, by omega⟩
        have hgS : List.lookup (2000 + n + 1) st.gql = none := by
          have := hg (n + 1) (by omega)
          simpa [Nat.add_assoc] using this
        obtain ⟨msg, hEq, p, hsuf⟩ :=
          ih f { st with depth := st.depth + 1 } (by simpa using (by omega : 50 ≤ f + (st.depth + 1)))
            (by simpa using (by omega : 50 < st.depth + 1 + n + 1)) (by omega)
            (fun k hk => by simpa using hg k (by omega))
        rw [show chainType (n + 1) =
          PgType.mk (2000 + n + 1) ("chain" ++ toString (n + 1)) "public" "d" "S"
            none none (some (chainType n)) false none none [] from rfl]
        rw [enforceF_mk_unfold]
        dsimp only
        simp only [Option.getD_none]
        rw [if_neg (by omega : ¬ (st.depth + 1 > 50))]
        rw [if_neg (by omega : ¬ (2000 + n + 1 = 0))]
        rw [overridesStep_noop _ _ (oidLookup_ge_2000 (2000 + n + 1) (by omega) (by omega))
          (oidInputLookup_ge_2000 (2000 + n + 1) (by omega) (by omega))]
        rw [enumStep_noop _ _ _ _ _ _ _ (by simp)]
        rw [if_neg (by simp : ¬ ((List.lookup (2000 + n + 1)
          ({ st with depth := st.depth + 1 } : BuildSt).gql).isNone = true ∧
          ("d" : String) = "r"))]
        dsimp only
        rw [if_pos (show (List.lookup (2000 + n + 1) st.gql).isNone = true ∧
          True ∧ (chainType n).id ≠ 0 from
          ⟨by simp [hgS], trivial, by rw [chainType_id]; omega⟩)]
        rw [hEq]
        simp only [domainFinish]
        simp only [finishEnforce]
        refine ⟨wrapErrMsg "public" ("chain" ++ toString (n + 1)) "d" msg, rfl, ?_⟩
        refine ⟨("Error occurred when processing database type \x27public."
            ++ ("chain" ++ toString (n + 1))
            ++ "\x27 (type=d):\n").data ++ "  ".data
            ++ p.flatMap (fun c => if c = '\n' then ['\n', ' ', ' '] else [c]), ?_⟩
        have hnn : ∀ c ∈ tooDeepMsg.data, ¬ c = '\n' := by decide
        simp only [wrapErrMsg, indentJs, String.data_append, hsuf, List.flatMap_append,
          flatMap_no_newline tooDeepMsg.data hnn, List.append_assoc]
        simp

/-- C1 (counterexample): the claim's last conjunct — "a failed
resolution leaves the counter at its pre-call value" — is false at a
concrete input.  Resolving the 51-level domain chain `chainType 50` from
the initial state does fail with the recursion-limit error, but it
leaves the shared depth counter at `1`, not at its pre-call value `0`:
the guard throw at PgTypesPlugin.js line 479 precedes the `try`, so that
level's `finally` decrement never runs. -/
theorem chain_depth_leak_counterexample :
    ∃ msg, enforceGqlTypeByPgType inflId st0 (chainType 50) =
        (.error msg, { st0 with depth := 1 }) ∧
      (∃ p, msg.data = p ++ tooDeepMsg.data) ∧
      ¬ ({ st0 with depth := 1 } : BuildSt).depth = st0.depth := by
  obtain ⟨msg, hEq, hsuf⟩ :=
    chain_fail 50 50 st0 (by decide) (by decide) (by decide) (fun k _ => rfl)
  exact ⟨msg, hEq, hsuf, by decide⟩

/-- C1 (amended): for a fresh domain chain of `n + 1` nested
descriptors, resolution from a state with depth headroom (`depth + n + 1
≤ 50`, e.g. a 49-level chain from the initial state) succeeds and
restores the depth counter to its pre-call value, while a chain past the
limit (`50 < depth + n + 1`, e.g. a 51-level chain from the initial
state) fails with the recursion-limit error and leaves the counter at
its pre-call value **plus one**: the counter is decremented on the
normal exit path and on wrapped inner errors, but the depth-guard throw
itself skips the decrement of the level that threw. -/
theorem chain_depth_bound (n : Nat) (st : BuildSt)
    (hbound : n < 900)
    (hg : ∀ k ≤ n, List.lookup (2000 + k) st.gql = none)
    (hi : ∀ k ≤ n, List.lookup (2000 + k) st.gqlInput = none) :
    (st.depth + n + 1 ≤ 50 →
      ∃ st', enforceGqlTypeByPgType inflId st (chainType n) =
          (.ok (chainGql n st.nextUid), st') ∧ st'.depth = st.depth) ∧
    (50 < st.depth + n + 1 →
      ∃ msg, enforceGqlTypeByPgType inflId st (chainType n) =
          (.error msg, { st with depth := st.depth + 1 }) ∧
        ∃ p, msg.data = p ++ tooDeepMsg.data) := by
  constructor
  · intro hdep
    obtain ⟨st', hEq, hdepth, _, _, _, _, _⟩ :=
      chain_ok n 50 st hdep (by omega) hg hi
    exact ⟨st', hEq, hdepth⟩
  · intro hdeep
    exact chain_fail n 50 st (by omega) hdeep hbound hg

theorem chain_depth_bound_witness :
    (48 < 900 ∧
     (∀ k ≤ 48, List.lookup (2000 + k) st0.gql = none) ∧
     (∀ k ≤ 48, List.lookup (2000 + k) st0.gqlInput = none) ∧
     st0.depth + 48 + 1 ≤ 50) ∧
    ∃ st', enforceGqlTypeByPgType inflId st0 (chainType 48) =
        (.ok (chainGql 48 st0.nextUid), st') ∧ st'.depth = st0.depth :=
  ⟨⟨by omega, fun k _ => rfl, fun k _ => rfl, by decide⟩,
   (chain_depth_bound 48 st0 (by omega) (fun k _ => rfl) (fun k _ => rfl)).1 (by decide)⟩

/-- Resolving a fresh enum-kind descriptor (id 1100, name `my_enum`)
returns a `GraphQLEnumType` whose member object is the `enumValues`
reduce over the raw variants, whatever those variants are: the enum
branch never inspects the variants for collisions. -/
theorem enum_resolve (evars : List String) :
    (enforceGqlTypeByPgType inflId st0
        (.mk 1100 "my_enum" "public" "e" "E" none none none false none none evars)).1 =
      .ok (.enumType 16 "my_enum" none (enumValues evars)) := by
  show (enforceF inflId 50 st0 _).1 = _
  rw [show (50 : Nat) = 49 + 1 from rfl]
  rw [enforceF_mk_unfold]
  dsimp only
  simp only [Option.getD_none]
  rw [if_neg (show ¬ (st0.depth + 1 > 50) by decide)]
  rw [if_neg (show ¬ ((1100 : Nat) = 0) by decide)]
  rw [overridesStep_noop _ _ (by rfl) (by rfl)]
  simp only [enumStep]
  rw [if_pos (show (List.lookup 1100 st0.gql).isNone = true ∧ True from
    ⟨by decide, trivial⟩)]
  dsimp only
  rw [if_neg (show ¬ ((List.lookup 1100 (updK st0.gql 1100
      (GqlType.enumType st0.nextUid (inflId.upperCamelCase "my_enum") none
        (enumValues evars)))).isNone = true ∧ ("e" : String) = "r") by
    simp [lookup_updK_self])]
  dsimp only
  rw [if_neg (show ¬ ((List.lookup 1100 (updK st0.gql 1100
      (GqlType.enumType st0.nextUid (inflId.upperCamelCase "my_enum") none
        (enumValues evars)))).isNone = true) by
    simp [lookup_updK_self])]
  dsimp only
  rw [tailStep_cached _ _ (lookup_updK_self st0.gql 1100 _)]
  rfl

/-- C2 (counterexample): the raw variants `">"` and `"GREATER_THAN"` are
distinct but both derive to the escaped member name `"GREATER_THAN"`,
and resolving an enum descriptor carrying both does NOT fail with a
configuration error: it succeeds, silently merging the two variants into
a single member whose stored value is the later variant (the `reduce`
at PgTypesPlugin.js lines 521-526 builds a plain object keyed by the
derived name, so the later entry overwrites the earlier one). -/
theorem enum_collision_counterexample :
    ¬ (">" : String) = "GREATER_THAN" ∧
    enumName ">" = enumName "GREATER_THAN" ∧
    (enforceGqlTypeByPgType inflId st0
        (.mk 1100 "my_enum" "public" "e" "E" none none none false none none
          [">", "GREATER_THAN"])).1 =
      .ok (.enumType 16 "my_enum" none [("GREATER_THAN", "GREATER_THAN")]) := by
  refine ⟨by decide, by decide, ?_⟩
  rw [enum_resolve [">", "GREATER_THAN"]]
  rfl

/-- C2 (amended): when two distinct raw variants derive to the same
escaped member name, resolving the enum descriptor succeeds and silently
merges them into a single enum member keyed by the shared derived name,
whose value is the later raw variant — no configuration error is
raised. -/
theorem enum_collision_merged (v1 v2 : String) (_hne : ¬ v1 = v2)
    (hcol : enumName v1 = enumName v2) :
    (enforceGqlTypeByPgType inflId st0
        (.mk 1100 "my_enum" "public" "e" "E" none none none false none none
          [v1, v2])).1 =
      .ok (.enumType 16 "my_enum" none [(enumName v2, v2)]) := by
  rw [enum_resolve [v1, v2]]
  have hv : enumValues [v1, v2] = [(enumName v2, v2)] := by
    simp [enumValues, updK, hcol]
  rw [hv]

theorem enum_collision_merged_witness :
    (¬ (">" : String) = "GREATER_THAN" ∧ enumName ">" = enumName "GREATER_THAN") ∧
    (enforceGqlTypeByPgType inflId st0
        (.mk 1100 "my_enum" "public" "e" "E" none none none false none none
          [">", "GREATER_THAN"])).1 =
      .ok (.enumType 16 "my_enum" none [(enumName "GREATER_THAN", "GREATER_THAN")]) :=
  ⟨⟨by decide, by decide⟩, enum_collision_merged ">" "GREATER_THAN" (by decide) (by decide)⟩

/-- C4: decoding the wire literal `"[-10,52)"` against a range over the
integer subtype (`int4`, id 23) yields start `-10` inclusive and end
`52` exclusive; the raw parse splits on the comma, takes the inclusivity
flags off the leading `[` / trailing `)` bracket characters and decodes
each bound text through the subtype's parser; parts of length at most
one (as in `"(,)"`) yield null bounds; the flags follow the bracket
characters (as in `"(5,8]"`). -/
theorem range_decode :
    rangeMap pgTypesGetTypeParser pg2GqlMapper
        (.mk 23 "int4" "pg_catalog" "b" "N" none none none false none none [])
        "[-10,52)" =
      .ok { start := some { value := .num (-10), inclusive := true },
            rangeEnd := some { value := .num 52, inclusive := false } } ∧
    pgRangeParserParse "[-10,52)" =
      .ok { start := some { inclusive := true, value := "-10" },
            rangeEnd := some { inclusive := false, value := "52" } } ∧
    rangeMap pgTypesGetTypeParser pg2GqlMapper
        (.mk 23 "int4" "pg_catalog" "b" "N" none none none false none none [])
        "(,)" =
      .ok { start := none, rangeEnd := none } ∧
    rangeMap pgTypesGetTypeParser pg2GqlMapper
        (.mk 23 "int4" "pg_catalog" "b" "N" none none none false none none [])
        "(5,8]" =
      .ok { start := some { value := .num 5, inclusive := false },
            rangeEnd := some { value := .num 8, inclusive := true } } := by
  refine ⟨by with_unfolding_all rfl, rfl, by with_unfolding_all rfl,
    by with_unfolding_all rfl⟩

/-- C5: the money decoder disambiguates the two grouping styles by the
position of the last comma: `"123,456.78"` (comma as grouping separator)
and `"123.456,78"` (comma exactly two digits from the end, hence the
decimal separator) both decode to the number `123456.78`. -/
theorem money_disambiguation :
    parseMoney "123,456.78" = Val.num ((12345678 : ℚ) / 100) ∧
    parseMoney "123.456,78" = Val.num ((12345678 : ℚ) / 100) := by
  exact ⟨by with_unfolding_all rfl, by with_unfolding_all rfl⟩

/-- C9: for every codec registry and every type descriptor, decoding
`null` or `undefined` returns it unchanged and encoding `null` or
`undefined` yields the SQL `null` fragment — both functions return
before consulting the registry, so no per-type codec is ever applied to
a null value (the result is independent of `m`). -/
theorem null_passthrough (m : Nat → Option Codec) (t : PgType) :
    pg2gql m .null t = .ok .null ∧
    pg2gql m .undef t = .ok .undef ∧
    gql2pg m .null t = .ok .null ∧
    gql2pg m .undef t = .ok .null := by
  cases t
  exact ⟨rfl, rfl, rfl, rfl⟩

/-- C10: the point decoder returns `undefined` (no result), not a
conversion error, for any text that does not both begin with `(` and
end with `)` — the registered codec maps such a string to `.ok .undef`
— while the properly parenthesised literal `"(1,3)"` is split on the
comma and converted to the `{x, y}` float object. -/
theorem point_decode (s : String)
    (h : ¬ (s.data.head? = some '(' ∧ s.data.getLast? = some ')')) :
    pointParse s = none ∧
    ∃ c, pg2GqlMapper 600 = some c ∧
      c.map (.str s) = .ok .undef ∧
      c.map (.str "(1,3)") = .ok (.obj [("x", .num 1), ("y", .num 3)]) := by
  have hp : pointParse s = none := by
    simp only [pointParse]
    rw [if_neg h]
  refine ⟨hp, _, rfl, ?_, ?_⟩
  · show Except.ok (match pointParse s with
      | some (x, y) => Val.obj [("x", x), ("y", y)]
      | none => Val.undef) = Except.ok Val.undef
    rw [hp]
  · show Except.ok (match pointParse "(1,3)" with
      | some (x, y) => Val.obj [("x", x), ("y", y)]
      | none => Val.undef) = _
    rw [show pointParse "(1,3)" = some (Val.num 1, Val.num 3) from by
      with_unfolding_all rfl]

theorem point_decode_witness :
    ¬ (("1,3" : String).data.head? = some '(' ∧
       ("1,3" : String).data.getLast? = some ')') ∧
    (pointParse "1,3" = none ∧
     ∃ c, pg2GqlMapper 600 = some c ∧
       c.map (.str "1,3") = .ok .undef ∧
       c.map (.str "(1,3)") = .ok (.obj [("x", .num 1), ("y", .num 3)])) :=
  ⟨by decide, point_decode "1,3" (by decide)⟩

/-- C6: for every array-kind descriptor (no codec registered for its
own id, no domain base), decoding a non-array wire value (other than the
null/undefined passthrough) fails with the conversion error naming the
target array type by its namespace-qualified name, and decoding an array
maps the item type's decoder over every element. -/
theorem array_decode (m : Nat → Option Codec) (tid : Nat)
    (tname tns ttyp tcat : String) (tdesc ttag : Option String)
    (it : PgType) (trsub : Option PgType) (evars : List String)
    (hm : m tid = none) :
    (∀ val : Val, (∀ vs, ¬ val = .arr vs) → ¬ val = .null → ¬ val = .undef →
      pg2gql m val
          (.mk tid tname tns ttyp tcat tdesc ttag none true (some it) trsub evars) =
        .error ("Expected array when converting PostgreSQL data into GraphQL; failing type: \x27"
          ++ tns ++ "." ++ tname ++ "\x27")) ∧
    (∀ vs : List Val,
      pg2gql m (.arr vs)
          (.mk tid tname tns ttyp tcat tdesc ttag none true (some it) trsub evars) =
        (vs.mapM (fun v => pg2gql m v it)).map Val.arr) := by
  constructor
  · intro val hna hnn hnu
    cases val with
    | null => exact absurd rfl hnn
    | undef => exact absurd rfl hnu
    | arr vs => exact absurd rfl (hna vs)
    | str s => simp [pg2gql, hm]
    | num q => simp [pg2gql, hm]
    | nan => simp [pg2gql, hm]
    | bool b => simp [pg2gql, hm]
    | obj fields => simp [pg2gql, hm]
  · intro vs
    simp [pg2gql, hm]

theorem array_decode_witness :
    (pg2GqlMapper 1021 = none ∧
     (∀ vs, ¬ Val.str "nope" = .arr vs) ∧
     ¬ Val.str "nope" = .null ∧ ¬ Val.str "nope" = .undef) ∧
    pg2gql pg2GqlMapper (.str "nope")
        (.mk 1021 "_float4" "pg_catalog" "b" "A" none none none true
          (some (.mk 700 "float4" "pg_catalog" "b" "N" none none none false none none []))
          none []) =
      .error "Expected array when converting PostgreSQL data into GraphQL; failing type: \x27pg_catalog._float4\x27" :=
  ⟨⟨rfl, fun _vs h => Val.noConfusion h, fun h => Val.noConfusion h,
    fun h => Val.noConfusion h⟩,
   (array_decode pg2GqlMapper 1021 "_float4" "pg_catalog" "b" "A" none none
        (.mk 700 "float4" "pg_catalog" "b" "N" none none none false none none [])
        none [] rfl).1
     (.str "nope") (fun _vs h => Val.noConfusion h) (fun h => Val.noConfusion h)
     (fun h => Val.noConfusion h)⟩

/-- C7: the domain branch (PgTypesPlugin.js lines 655-671, embedded as
`domainFinish` and invoked by `enforceF` on the recursively resolved
base type): the domain's output type is always a prototype alias of the
resolved base output type `B`, carrying the domain's own (inflected)
name and description; a distinct input alias (same name through the
`inputType` inflector, same description) is registered if and only if
the base id's resolved input entry exists and differs from `B` — when
the input entry is exactly `B`, or missing, no input alias is
created. -/
theorem domain_input_alias (infl : Inflection) (tid : Nat) (nameTag : String)
    (desc : Option String) (btId : Nat) (B bi : GqlType) (st' : BuildSt) :
    ((domainFinish infl tid nameTag desc btId (.ok B, st')).2.gql =
       updK st'.gql tid (.aliasType st'.nextUid (infl.upperCamelCase nameTag) desc B)) ∧
    (List.lookup btId st'.gqlInput = some bi → ¬ bi = B →
       (domainFinish infl tid nameTag desc btId (.ok B, st')).2.gqlInput =
         updK st'.gqlInput tid
           (.aliasType (st'.nextUid + 1)
             (infl.inputTypeName (infl.upperCamelCase nameTag)) desc bi)) ∧
    (List.lookup btId st'.gqlInput = some B →
       (domainFinish infl tid nameTag desc btId (.ok B, st')).2.gqlInput =
         st'.gqlInput) ∧
    (List.lookup btId st'.gqlInput = none →
       (domainFinish infl tid nameTag desc btId (.ok B, st')).2.gqlInput =
         st'.gqlInput) := by
  refine ⟨?_, ?_, ?_, ?_⟩
  · simp only [domainFinish]
    cases hbi : List.lookup btId st'.gqlInput with
    | none => rfl
    | some b =>
        dsimp only
        split
        · rfl
        · rfl
  · intro hbi hne
    simp only [domainFinish, hbi]
    rw [if_pos hne]
    rfl
  · intro hbi
    simp only [domainFinish, hbi]
    rw [if_neg (by simp : ¬ (B ≠ B))]
  · intro hbi
    simp only [domainFinish, hbi]

theorem domain_input_alias_witness :
    (List.lookup 5 ({ st0 with gqlInput := [(5, gqlString)] } : BuildSt).gqlInput =
       some gqlString ∧ ¬ gqlString = gqlInt) ∧
    (domainFinish inflId 7 "my_dom" none 5
        (.ok gqlInt, { st0 with gqlInput := [(5, gqlString)] })).2.gqlInput =
      updK [(5, gqlString)] 7
        (.aliasType (st0.nextUid + 1)
          (inflId.inputTypeName (inflId.upperCamelCase "my_dom")) none gqlString) :=
  ⟨⟨rfl, by decide⟩,
   (domain_input_alias inflId 7 "my_dom" none 5 gqlInt gqlString
       { st0 with gqlInput := [(5, gqlString)] }).2.1 rfl (by decide)⟩

/-- `rangeFinish` succeeds only with a range type registered under the
descriptor's id. -/
theorem rangeFinish_ok_inv (infl : Inflection) (tid subId : Nat)
    (X : Except String GqlType × BuildSt) (u : Unit) (st4 : BuildSt)
    (h : rangeFinish infl tid subId X = (.ok u, st4)) :
    (List.lookup tid st4.gql).isNone = false := by
  obtain ⟨res, st'⟩ := X
  cases res with
  | error e =>
      simp only [rangeFinish] at h
      exact absurd h (by simp)
  | ok subGql =>
      simp only [rangeFinish] at h
      split at h
      · have h2 := congrArg Prod.snd h
        dsimp at h2
        subst h2
        split
        · simp [lookup_updK_self]
        · simp [lookup_updK_self]
      · have h2 := congrArg Prod.snd h
        dsimp at h2
        subst h2
        simp [lookup_updK_self]

/-- `domainFinish` succeeds only with the domain's alias registered
under the descriptor's id. -/
theorem domainFinish_ok_inv (infl : Inflection) (tid : Nat) (nameTag : String)
    (desc : Option String) (btId : Nat) (X : Except String GqlType × BuildSt)
    (u : Unit) (st5 : BuildSt)
    (h : domainFinish infl tid nameTag desc btId X = (.ok u, st5)) :
    (List.lookup tid st5.gql).isNone = false := by
  obtain ⟨res, st'⟩ := X
  cases res with
  | error e =>
      simp only [domainFinish] at h
      exact absurd h (by simp)
  | ok B =>
      simp only [domainFinish] at h
      split at h
      · split at h
        · have h2 := congrArg Prod.snd h
          dsimp at h2
          subst h2
          simp [lookup_updK_self]
        · have h2 := congrArg Prod.snd h
          dsimp at h2
          subst h2
          simp [lookup_updK_self]
      · have h2 := congrArg Prod.snd h
        dsimp at h2
        subst h2
        simp [lookup_updK_self]

/-- The result of `enforceF` does not depend on the fuel as long as the
fuel plus the state's depth counter reaches the guard's bound: every
recursive call trades one unit of fuel for one unit of depth, so the
depth guard always fires before the fuel runs out (`k` bounds the depth
still available). -/
theorem enforceF_fuel_bounded (infl : Inflection) (k : Nat) :
    ∀ (st : BuildSt) (t : PgType) (fuel fuel' : Nat),
      50 ≤ st.depth + k →
      50 ≤ fuel + st.depth → 50 ≤ fuel' + st.depth →
      enforceF infl fuel st t = enforceF infl fuel' st t := by
  induction k with
  | zero =>
      intro st t fuel fuel' hk hf hf'
      rw [enforceF_deep infl fuel st t (by omega),
          enforceF_deep infl fuel' st t (by omega)]
  | succ k ih =>
      intro st t fuel fuel' hk hf hf'
      by_cases hdeep : 50 ≤ st.depth
      · rw [enforceF_deep infl fuel st t hdeep, enforceF_deep infl fuel' st t hdeep]
      · obtain ⟨f, rfl⟩ : ∃ f, fuel = f + 1 := ⟨fuel - 1, by omega⟩
        obtain ⟨f', rfl⟩ : ∃ f2, fuel' = f2 + 1 := ⟨fuel' - 1, by omega⟩
        cases t with
        | mk tid tname tns ttyp tcat tdesc ttag tdbase tisArr taitem trsub tevars =>
        rw [enforceF_mk_unfold, enforceF_mk_unfold]
        dsimp only
        simp only [if_neg (by omega : ¬ (st.depth + 1 > 50))]
        congr 1
        by_cases h0 : tid = 0
        · simp only [if_pos h0]
        · simp only [if_neg h0]
          have hd3 : (enumStep infl (overridesStep { st with depth := st.depth + 1 } tid)
              tid ttyp (ttag.getD tname) tdesc tevars).depth = st.depth + 1 := by
            rw [enumStep_depth, overridesStep_depth]
          have hrecAt : ∀ sub, enforceF infl f
              (enumStep infl (overridesStep { st with depth := st.depth + 1 } tid)
                tid ttyp (ttag.getD tname) tdesc tevars) sub =
            enforceF infl f'
              (enumStep infl (overridesStep { st with depth := st.depth + 1 } tid)
                tid ttyp (ttag.getD tname) tdesc tevars) sub :=
            fun sub => ih _ sub f f' (by rw [hd3]; omega) (by rw [hd3]; omega)
              (by rw [hd3]; omega)
          by_cases hr : (List.lookup tid
              (enumStep infl (overridesStep { st with depth := st.depth + 1 } tid)
                tid ttyp (ttag.getD tname) tdesc tevars).gql).isNone = true ∧ ttyp = "r"
          · obtain ⟨hlook, hty⟩ := hr
            subst hty
            simp only [if_pos (And.intro hlook True.intro)]
            cases trsub with
            | none => rfl
            | some sub =>
                dsimp only
                rw [hrecAt sub]
                generalize hR : rangeFinish infl tid sub.id (enforceF infl f'
                  (enumStep infl (overridesStep { st with depth := st.depth + 1 } tid)
                    tid "r" (ttag.getD tname) tdesc tevars) sub) = R
                obtain ⟨res4, st4⟩ := R
                cases res4 with
                | error e => rfl
                | ok u4 =>
                    have hc := rangeFinish_ok_inv infl tid sub.id _ u4 st4 hR
                    cases tdbase with
                    | none => simp [hc]
                    | some bt => simp [hc]
          · simp only [if_neg hr]
            cases tdbase with
            | none =>
                dsimp only
                by_cases hc : (List.lookup tid
                    (enumStep infl (overridesStep { st with depth := st.depth + 1 } tid)
                      tid ttyp (ttag.getD tname) tdesc tevars).gql).isNone = true
                · simp only [if_pos hc]
                  by_cases hB : tcat = "B"
                  · simp only [if_pos hB]
                  · simp only [if_neg hB]
                    by_cases hN : tcat = "N"
                    · simp only [if_pos hN]
                    · simp only [if_neg hN]
                      by_cases hA : tcat = "A"
                      · simp only [if_pos hA]
                        cases taitem with
                        | none => rfl
                        | some it =>
                            dsimp only
                            rw [hrecAt it]
                      · simp only [if_neg hA]
                · simp only [if_neg hc]
            | some bt =>
                by_cases hd : (List.lookup tid
                    (enumStep infl (overridesStep { st with depth := st.depth + 1 } tid)
                      tid ttyp (ttag.getD tname) tdesc tevars).gql).isNone = true ∧
                    ttyp = "d" ∧ bt.id ≠ 0
                · simp only [if_pos hd]
                  rw [hrecAt bt]
                  generalize hD : domainFinish infl tid (ttag.getD tname) tdesc bt.id
                    (enforceF infl f'
                      (enumStep infl (overridesStep { st with depth := st.depth + 1 } tid)
                        tid ttyp (ttag.getD tname) tdesc tevars) bt) = D
                  obtain ⟨res5, st5⟩ := D
                  cases res5 with
                  | error e => rfl
                  | ok u5 =>
                      have hc5 := domainFinish_ok_inv infl tid (ttag.getD tname) tdesc
                        bt.id _ u5 st5 hD
                      simp [hc5]
                · simp only [if_neg hd]
                  by_cases hc : (List.lookup tid
                      (enumStep infl (overridesStep { st with depth := st.depth + 1 } tid)
                        tid ttyp (ttag.getD tname) tdesc tevars).gql).isNone = true
                  · simp only [if_pos hc]
                    by_cases hB : tcat = "B"
                    · simp only [if_pos hB]
                    · simp only [if_neg hB]
                      by_cases hN : tcat = "N"
                      · simp only [if_pos hN]
                      · simp only [if_neg hN]
                        by_cases hA : tcat = "A"
                        · simp only [if_pos hA]
                          cases taitem with
                          | none => rfl
                          | some it =>
                              dsimp only
                              rw [hrecAt it]
                        · simp only [if_neg hA]
                  · simp only [if_neg hc]

/-- The fuel of `enforceF` is a proof artifact: any two fuels that,
together with the state's depth counter, reach the guard bound give the
same result.  In particular `enforceGqlTypeByPgType`'s fuel 50 is
enough from every state. -/
theorem enforceF_fuel_irrelevant (infl : Inflection) (st : BuildSt) (t : PgType)
    (fuel fuel' : Nat) (hf : 50 ≤ fuel + st.depth) (hf' : 50 ≤ fuel' + st.depth) :
    enforceF infl fuel st t = enforceF infl fuel' st t :=
  enforceF_fuel_bounded infl 50 st t fuel fuel' (by omega) hf hf'

/-- C8: the node-identifier encoder returns the base64 encoding of the
JSON serialization of the array whose head is the type's alias — the
type's own name when no alias has been registered — followed by the key
parts in order.  Concretely: type `User`, key part `1`, no alias
encodes to `"WyJVc2VyIiwxXQ=="` (base64 of `["User",1]`); with alias
`U2` registered for `User` and key parts `1, "x"` it encodes to
`"WyJVMiIsMSwieCJd"` (base64 of `["U2",1,"x"]`). -/
theorem node_id_encoding :
    (∀ tn : String, getNodeAlias [] tn = tn) ∧
    jsonStringify (.arr [.str "User", .num 1]) = "[\"User\",1]" ∧
    base64 "[\"User\",1]" = "WyJVc2VyIiwxXQ==" ∧
    getNodeIdForTypeAndIdentifiers [] "User" [.num 1] = "WyJVc2VyIiwxXQ==" ∧
    getNodeIdForTypeAndIdentifiers [("User", "U2")] "User" [.num 1, .str "x"] =
      "WyJVMiIsMSwieCJd" := by
  refine ⟨fun tn => rfl, ?_, ?_, ?_, ?_⟩ <;> with_unfolding_all rfl

